import Mathlib

/-!
Verification of the cn_cdc_crawl surveillance-data pipeline.

This file gives a shallow embedding of the repository's core algorithms and
proves/refutes the specified properties about them:

* the merge engine `merge_to_main_data` of `src/main_pipeline.py`
  (concatenate new-first, deduplicate on the natural key
  `(reference_date, target_end_date, pathogen)` keeping the first occurrence,
  re-sort by parsed `reference_date` descending with nulls last and then by
  `pathogen` ascending, and the separately maintained covid table);
* the table scorer/selector `score_table` / `pick_table1` of
  `src/extract_data_from_md.py`;
* the latest-week column resolver `pick_latest_col` inside
  `extract_latest_week_data` of `src/extract_data_from_md.py`;
* the numeric-cell flatteners `to_float` (`extract_data_from_md.py`) and
  `extract_numeric` / `parse_pathogen_data` (`extract_surveillance_data.py`);
* the period resolver `extract_week_info_from_title` of
  `src/extract_surveillance_data.py`, including its ISO-week fallback.
-/

namespace CnCdc

/-! ## Definitions -/

/-- Three-way comparison of naturals. -/
def natCmp (a b : Nat) : Ordering :=
  if a < b then .lt else if b < a then .gt else .eq

/-- Three-way comparison of characters by Unicode code point
(Python string comparison is code-point lexicographic). -/
def charCmp (a b : Char) : Ordering := natCmp a.toNat b.toNat

/-- Lexicographic three-way comparison of char lists. -/
def charsCmp : List Char → List Char → Ordering
  | [], [] => .eq
  | [], _ :: _ => .lt
  | _ :: _, [] => .gt
  | a :: as, b :: bs =>
    match charCmp a b with
    | .eq => charsCmp as bs
    | o => o

/-- Three-way comparison of strings by code points (Python `str` ordering). -/
def strCmp (a b : String) : Ordering := charsCmp a.data b.data

/-- One row of the historical table (`cncdc_surveillance_all.csv`). -/
structure Record where
  reference_date : Option String
  target_end_date : Option String
  report_week : Option String
  pathogen : Option String
  ili_percent : Option String
  sari_percent : Option String
deriving DecidableEq, Repr

/-- The natural deduplication key used by
`drop_duplicates(subset=['reference_date', 'target_end_date', 'pathogen'], keep='first')`
(`src/main_pipeline.py` lines 79-82).  pandas treats NaN cells as equal inside
`subset`, which `Option` equality matches. -/
def natKey (r : Record) : Option String × Option String × Option String :=
  (r.reference_date, r.target_end_date, r.pathogen)

/-- Day-in-month table of the Gregorian calendar. -/
def daysInMonth (y m : Nat) : Nat :=
  if m = 2 then (if y % 4 = 0 ∧ (y % 100 ≠ 0 ∨ y % 400 = 0) then 29 else 28)
  else if m = 4 ∨ m = 6 ∨ m = 9 ∨ m = 11 then 30
  else 31

/-- Numeric value of an ASCII digit, `none` otherwise. -/
def digitVal (c : Char) : Option Nat :=
  if '0' ≤ c ∧ c ≤ '9' then some (c.toNat - '0'.toNat) else none

/-- Models `pd.to_datetime(-, errors='coerce')` on the canonical
zero-padded `YYYY-MM-DD` strings that this pipeline itself writes
(`strftime('%Y-%m-%d')` in the extractors).  A valid date is encoded
monotonically as `y*10000 + m*100 + d`; any other string coerces to NaT
(`none`). -/
def parseISODate (s : String) : Option Nat :=
  match s.data with
  | [y1, y2, y3, y4, h1, m1, m2, h2, d1, d2] =>
    if h1 = '-' ∧ h2 = '-' then
      match digitVal y1, digitVal y2, digitVal y3, digitVal y4,
            digitVal m1, digitVal m2, digitVal d1, digitVal d2 with
      | some a, some b, some c, some d, some e, some f, some g, some h =>
        let y := a * 1000 + b * 100 + c * 10 + d
        let m := e * 10 + f
        let dd := g * 10 + h
        if 1 ≤ m ∧ m ≤ 12 ∧ 1 ≤ dd ∧ dd ≤ daysInMonth y m then
          some (y * 10000 + m * 100 + dd)
        else none
      | _, _, _, _, _, _, _, _ => none
    else none
  | _ => none

/-- The `_sort_date` column: `pd.to_datetime(df['reference_date'], errors='coerce')`. -/
def sortDate (r : Record) : Option Nat := r.reference_date.bind parseISODate

/-- Sort key of a row for the main-table sort
`sort_values(['_sort_date', 'pathogen'], ascending=[False, True])`. -/
def skey (r : Record) : Option Nat × Option String := (sortDate r, r.pathogen)

/-- Comparator for `_sort_date` descending with NaT last (`na_position='last'`). -/
def dateCmpDesc : Option Nat → Option Nat → Ordering
  | none, none => .eq
  | none, some _ => .gt
  | some _, none => .lt
  | some a, some b => natCmp b a

/-- Comparator for `pathogen` ascending with NaN last. -/
def pathCmpAsc : Option String → Option String → Ordering
  | none, none => .eq
  | none, some _ => .gt
  | some _, none => .lt
  | some a, some b => strCmp a b

/-- Lexicographic comparator on sort keys. -/
def keyCmp (k₁ k₂ : Option Nat × Option String) : Ordering :=
  match dateCmpDesc k₁.1 k₂.1 with
  | .eq => pathCmpAsc k₁.2 k₂.2
  | o => o

/-- The total preorder the main table is sorted by. -/
def recLe (a b : Record) : Prop := keyCmp (skey a) (skey b) ≠ .gt

instance : DecidableRel recLe := fun a b => by unfold recLe; infer_instance

/-- `drop_duplicates(keep='first')` restricted to the natural key: keep each
row whose key has not been seen before, preserving order
(`src/main_pipeline.py` lines 79-82). -/
def dedupSeen (seen : List (Option String × Option String × Option String)) :
    List Record → List Record
  | [] => []
  | r :: rs =>
    if natKey r ∈ seen then dedupSeen seen rs
    else r :: dedupSeen (natKey r :: seen) rs

/-- Deduplication by natural key, keeping the first occurrence. -/
def dedupKey (l : List Record) : List Record := dedupSeen [] l

/-- The merge of a new batch into an existing historical table
(`merge_to_main_data`, `src/main_pipeline.py` lines 76-89; identically
`merge_csv_to_main`, `airflow/dags/cdc_data_update_dag.py` lines 696-707):
concatenate new-first, deduplicate on the natural key keeping the first
occurrence, then stably sort by parsed `reference_date` descending (NaT last)
and `pathogen` ascending. -/
def mergeMain (batch hist : List Record) : List Record :=
  List.insertionSort recLe (dedupKey (batch ++ hist))

/-- Well-formedness of a row per the spec's data model: `reference_date` is a
null or a (pipeline-canonical) ISO date, and `pathogen` is a non-null entity
name.  All rows the pipeline itself writes satisfy this. -/
def wfRecord (r : Record) : Bool :=
  (match r.reference_date with
   | none => true
   | some s => (parseISODate s).isSome) && r.pathogen.isSome

/-- Substring containment, Python's `pat in s`. -/
def isSubstr (pat s : String) : Bool :=
  s.data.tails.any (fun t => pat.data.isPrefixOf t)

/-- The fixed pathogen-name pattern of the covid view:
`df['pathogen'].str.contains('新型冠状病毒', na=False)` (the pattern has no
regex metacharacters, so it is a plain substring test; NaN pathogen gives
`False`). -/
def isCovid (r : Record) : Bool :=
  match r.pathogen with
  | some s => isSubstr "新型冠状病毒" s
  | none => false

/-- The covid table is sorted by `sort_values('_sort_date', ascending=False)`
alone — a single-key sort, no `pathogen` tiebreak.  (pandas' default
quicksort is unstable; no claim below depends on the order of ties, which we
model as stable.) -/
def covLe (a b : Record) : Prop := dateCmpDesc (sortDate a) (sortDate b) ≠ .gt

instance : DecidableRel covLe := fun a b => by unfold covLe; infer_instance

/-- Sort of the covid table: parsed `reference_date` descending, NaT last. -/
def sortCovid (l : List Record) : List Record := List.insertionSort covLe l

/-- The two persisted CSV files (`None` = the file does not exist). -/
structure FileState where
  allTable : Option (List Record)
  covidTable : Option (List Record)
deriving DecidableEq, Repr

/-- One update of the historical table (`merge_to_main_data`,
`src/main_pipeline.py` lines 71-102): if the file exists, merge new-first with
dedup and re-sort; if it does not, the batch is only sorted (no dedup) and
written as-is. -/
def mergeAllStep (batch : List Record) : Option (List Record) → List Record
  | some hist => mergeMain batch hist
  | none => List.insertionSort recLe batch

/-- One update of the covid table (`merge_to_main_data`,
`src/main_pipeline.py` lines 104-140): the covid-filtered **batch** (not the
updated historical table) is merged into the **previous covid table**; when
the covid file does not exist it is created from the filtered batch only when
that is non-empty. -/
def mergeCovidStep (batch : List Record) : Option (List Record) → Option (List Record)
  | some cov => some (sortCovid (dedupKey (batch.filter isCovid ++ cov)))
  | none =>
    if (batch.filter isCovid).length > 0 then some (sortCovid (batch.filter isCovid))
    else none

/-- The whole merge invocation over persisted state
(`merge_to_main_data`, `src/main_pipeline.py` lines 63-148).  The historical
table is computed and written first, the covid table second; a failing covid
write raises inside the surrounding `try`, which prints the traceback and
returns `False` — the already-written historical table stays updated and the
covid file keeps its previous contents.  `covidWriteFails` injects that
failure. -/
def merge_to_main_data (batch : List Record) (fs : FileState) (covidWriteFails : Bool) :
    Bool × FileState :=
  let newAll := mergeAllStep batch fs.allTable
  if covidWriteFails then (false, ⟨some newAll, fs.covidTable⟩)
  else (true, ⟨some newAll, mergeCovidStep batch fs.covidTable⟩)

/-- The spec's description of the covid table (claim-side definition, for the
refinement comparison): recompute it from the just-updated historical table by
the same pattern filter and the same dedup/sort rule. -/
def covidRecompute (allNew : List Record) : List Record :=
  sortCovid (dedupKey (allNew.filter isCovid))

/-! ## The extraction layer (`src/extract_data_from_md.py`) -/

/-- `PATHOGEN_KEYS` (entity-name keyword family). -/
def PATHOGEN_KEYS : List String := ["病原体", "病原", "病原学", "Pathogen"]

/-- `ILI_KEYS` (outpatient influenza-like-illness keyword family). -/
def ILI_KEYS : List String := ["门急诊", "流感样", "ILI", "门诊"]

/-- `SARI_KEYS` (inpatient severe-acute-respiratory-infection keyword family). -/
def SARI_KEYS : List String := ["住院", "严重急性", "SARI"]

/-- `any(k in c for k in keys)`. -/
def containsAny (c : String) (keys : List String) : Bool :=
  keys.any (fun k => isSubstr k c)

/-- A parsed candidate table: column labels plus the cell grid, each cell the
`str()` rendering of the pandas cell (a NaN cell renders as `"nan"`). -/
structure DFrame where
  cols : List String
  rows : List (List String)
deriving DecidableEq, Repr

/-- `score_table` (`src/extract_data_from_md.py` lines 62-75): keyword
weights 4/3/3 over the column labels, 2/2/2 over the first two data rows
(joined by spaces), plus `min(len(df), 10)`. -/
def scoreTable (df : DFrame) : Int :=
  (if df.cols.any (fun c => containsAny c PATHOGEN_KEYS) then 4 else 0) +
  (if df.cols.any (fun c => containsAny c ILI_KEYS) then 3 else 0) +
  (if df.cols.any (fun c => containsAny c SARI_KEYS) then 3 else 0) +
  (if 2 ≤ df.rows.length then
    (let top0 := String.intercalate " " (df.rows.getD 0 [])
     let top1 := String.intercalate " " (df.rows.getD 1 [])
     (if containsAny top0 PATHOGEN_KEYS ∨ containsAny top1 PATHOGEN_KEYS then 2 else 0) +
     (if containsAny top0 ILI_KEYS ∨ containsAny top1 ILI_KEYS then 2 else 0) +
     (if containsAny top0 SARI_KEYS ∨ containsAny top1 SARI_KEYS then 2 else 0))
   else 0) +
  Int.ofNat (min df.rows.length 10)

/-- The selection loop of `pick_table1`
(`src/extract_data_from_md.py` lines 122-126): running best starts at score
`-1`; a candidate replaces it only on a strictly greater score. -/
def pickBestAux : Option DFrame → Int → List DFrame → Option DFrame
  | best, _, [] => best
  | best, bestScore, df :: rest =>
    if bestScore < scoreTable df then pickBestAux (some df) (scoreTable df) rest
    else pickBestAux best bestScore rest

/-- Table selection over the candidate list (`pick_table1`,
`src/extract_data_from_md.py` lines 120-128): `none` when there are no
candidates, otherwise the best-scoring candidate. -/
def pickBest (cands : List DFrame) : Option DFrame := pickBestAux none (-1) cands

/-- Running maximum of candidate scores, seeded with the initial best. -/
def maxScore (bs : Int) (l : List DFrame) : Int :=
  l.foldl (fun m df => max m (scoreTable df)) bs

/-- Python `\s` on the whitespace the tables contain. -/
def isSpace (c : Char) : Bool := c = ' ' ∨ c = '\t' ∨ c = '\n' ∨ c = '\r'

def skipSpaces : List Char → List Char
  | [] => []
  | c :: cs => if isSpace c then skipSpaces cs else c :: cs

def isDigitCh (c : Char) : Bool := '0' ≤ c ∧ c ≤ '9'

def digitNat (c : Char) : Nat := c.toNat - '0'.toNat

/-- Match `\s*(\d{1,2})\s*周` (the tail of `WEEK_NUMS`,
`src/extract_data_from_md.py` line 158) at this position: greedy two-digit
read with a one-digit backtrack, then optional spaces, then `周`.  Returns
the week number and the remainder after the match. -/
def matchWeekCore (l : List Char) : Option (Nat × List Char) :=
  match skipSpaces l with
  | c1 :: rest1 =>
    if isDigitCh c1 then
      match rest1 with
      | c2 :: rest2 =>
        if isDigitCh c2 then
          match skipSpaces rest2 with
          | '周' :: rest3 => some (digitNat c1 * 10 + digitNat c2, rest3)
          | _ =>
            match skipSpaces rest1 with
            | '周' :: rest3 => some (digitNat c1, rest3)
            | _ => none
        else
          match skipSpaces rest1 with
          | '周' :: rest3 => some (digitNat c1, rest3)
          | _ => none
      | [] => none
    else none
  | [] => none

/-- Match `第?\s*(\d{1,2})\s*周` at this position.  (When `第` is absent the
regex's optional branch needs a space or digit next, so trying the
with-`第` branch first and falling back is equivalent to this direct test.) -/
def matchWeekAt (l : List Char) : Option (Nat × List Char) :=
  match l with
  | '第' :: rest => matchWeekCore rest
  | _ => matchWeekCore l

/-- `WEEK_NUMS.findall`: scan left to right, non-overlapping matches. -/
def weekNumsAux : Nat → List Char → List Nat
  | 0, _ => []
  | _ + 1, [] => []
  | fuel + 1, c :: cs =>
    match matchWeekAt (c :: cs) with
    | some (w, rest) => w :: weekNumsAux fuel rest
    | none => weekNumsAux fuel cs

/-- All week numbers embedded in a label,
`[int(x) for x in WEEK_NUMS.findall(c)]`. -/
def weekNums (s : String) : List Nat := weekNumsAux s.data.length s.data

/-- Python `max` of a non-empty list, given head and tail. -/
def maxList (w : Nat) (ws : List Nat) : Nat := ws.foldl max w

/-- The largest embedded week number of a label (`0` when there is none). -/
def weekMaxD (c : String) : Nat :=
  match weekNums c with
  | [] => 0
  | w :: ws => maxList w ws

/-- A column that counts for the latest-week selection: label contains a
family keyword and embeds at least one week number. -/
def wpred (keys : List String) (c : String) : Bool :=
  containsAny c keys && !(weekNums c).isEmpty

/-- `find_pathogen_col` (`src/extract_data_from_md.py` lines 162-165):
first keyword column, else column 0. -/
def findPathogenCol (cols : List String) : String :=
  match cols.find? (fun c => containsAny c PATHOGEN_KEYS) with
  | some c => c
  | none => cols.headD ""

/-- The loop of `pick_latest_col` (`src/extract_data_from_md.py`
lines 167-178): keyword columns with week numbers compete on the largest
embedded week (strict improvement only); a keyword column without a week
number is retained only as a first fallback candidate. -/
def pickLatestColAux (keys : List String) :
    Option String → Option Nat → List String → Option String × Option Nat
  | best, bw, [] => (best, bw)
  | best, bw, c :: rest =>
    if containsAny c keys then
      match weekNums c with
      | [] =>
        if best.isNone then pickLatestColAux keys (some c) bw rest
        else pickLatestColAux keys best bw rest
      | w :: ws =>
        let wmax := maxList w ws
        match bw with
        | none => pickLatestColAux keys (some c) (some wmax) rest
        | some bwv =>
          if bwv < wmax then pickLatestColAux keys (some c) (some wmax) rest
          else pickLatestColAux keys best bw rest
    else pickLatestColAux keys best bw rest

/-- `pick_latest_col`: the selected value column and its week number for one
indicator family. -/
def pickLatestCol (keys cols : List String) : Option String × Option Nat :=
  pickLatestColAux keys none none cols

/-- The week-competition restricted to a running best (proof device for the
fold invariant of `pickLatestColAux` once a week-numbered column is held). -/
def bestWeekFold (keys : List String) (bc : String) (bw : Nat) : List String → String × Nat
  | [] => (bc, bw)
  | c :: rest =>
    if wpred keys c then
      if bw < weekMaxD c then bestWeekFold keys c (weekMaxD c) rest
      else bestWeekFold keys bc bw rest
    else bestWeekFold keys bc bw rest

/-! ## Numeric-cell flattening -/

/-- Python `str.strip()` (on the whitespace these cells contain). -/
def strTrim (s : String) : String :=
  String.mk (((s.data.dropWhile isSpace).reverse.dropWhile isSpace).reverse)

def natOfDigits (l : List Char) : Nat :=
  l.foldl (fun n c => n * 10 + digitNat c) 0

/-- Python `float()` on a string of digits and dots (what survives the
`re.sub` cleanups): at most one dot, at least one digit. -/
def parseSimpleFloat (l : List Char) : Option ℚ :=
  let intPart := l.takeWhile isDigitCh
  match l.drop intPart.length with
  | [] => if intPart.isEmpty then none else some (mkRat (natOfDigits intPart) 1)
  | '.' :: frac =>
    if frac.all isDigitCh ∧ (¬ intPart.isEmpty ∨ ¬ frac.isEmpty) then
      some (mkRat (natOfDigits intPart * 10 ^ frac.length + natOfDigits frac)
        (10 ^ frac.length))
    else none
  | _ => none

/-- `extract_numeric` (`src/extract_surveillance_data.py` lines 199-210):
strip `%`, `％`, `,`, whitespace, then `re.sub(r'[^\d\.]', '')` — note this
also deletes any minus sign — then `float`, with `''`/`'.'` (and any parse
failure) giving null.  NaN input gives null. -/
def extract_numeric (val : Option String) : Option ℚ :=
  match val with
  | none => none
  | some v =>
    let cleaned := v.data.filter (fun c => isDigitCh c || c = '.')
    if cleaned.isEmpty ∨ cleaned = ['.'] then none
    else parseSimpleFloat cleaned

/-- `to_float` (`src/extract_data_from_md.py` lines 188-195): strip
thousands separators and percent signs, `re.sub(r"[^\d\.\-]", "")` (minus is
kept here), `''`/`'-'` give null, then `float`. -/
def to_float (val : Option String) : Option ℚ :=
  match val with
  | none => none
  | some v =>
    let cleaned := v.data.filter (fun c => isDigitCh c || c = '.' || c = '-')
    if cleaned.isEmpty ∨ cleaned = ['-'] then none
    else
      match cleaned with
      | '-' :: rest => (parseSimpleFloat rest).map (fun q => -q)
      | _ => parseSimpleFloat cleaned

/-- A data row of the fixed-shape table built by `extract_table_from_html`
(`src/extract_surveillance_data.py` lines 148-160): five `get_text().strip()`
cells. -/
structure PRow where
  pathogen : String
  ili_current : String
  ili_change : String
  sari_current : String
  sari_change : String
deriving DecidableEq, Repr

/-- A flattened record of one table row. -/
structure PathRec where
  pathogen : String
  ili_percent : Option ℚ
  sari_percent : Option ℚ
deriving DecidableEq, Repr

/-- `str.startswith`. -/
def strStarts (pre s : String) : Bool := pre.data.isPrefixOf s.data

/-- The row-skip stoplist of `parse_pathogen_data`
(`src/extract_surveillance_data.py` lines 192-196). -/
def pathogenSkip (p : String) : Bool :=
  p = "" ∨ p = "合计" ∨ p = "总计" ∨ p = "病原体" ∨
  strStarts "第" p ∨ isSubstr "岁" p ∨
  strStarts "①" p ∨ strStarts "②" p ∨ strStarts "③" p

/-- `parse_pathogen_data` (`src/extract_surveillance_data.py` lines 167-224):
skip stoplisted names; parse both value cells; keep the row **only if at
least one value parsed** (`if ili_val is not None or sari_val is not None`). -/
def parse_pathogen_data (rows : List PRow) : List PathRec :=
  rows.filterMap (fun r =>
    if pathogenSkip (strTrim r.pathogen) then none
    else
      if extract_numeric (some r.ili_current) = none ∧
         extract_numeric (some r.sari_current) = none then none
      else some ⟨strTrim r.pathogen, extract_numeric (some r.ili_current),
        extract_numeric (some r.sari_current)⟩)

/-- `str(r.get(c, ""))` for the pathogen cell of the markdown-table row:
a missing column gives `""`, a NaN cell renders as `"nan"`. -/
def mdNameOf (cols : List String) (row : List (Option String)) (c : String) : String :=
  match cols.indexOf? c with
  | some i =>
    match row.getD i none with
    | some s => s
    | none => "nan"
  | none => ""

/-- `r.get(c)` for a value cell (NaN modelled as `none`). -/
def mdCell (cols : List String) (row : List (Option String)) (c : String) : Option String :=
  match cols.indexOf? c with
  | some i => row.getD i none
  | none => none

/-- The row loop of `extract_latest_week_data`
(`src/extract_data_from_md.py` lines 197-205): resolve the pathogen column
and the two latest-week value columns, then keep every row whose stripped
name is non-empty and not `合计`/`总计` — unparsable value cells give null,
they never drop the row. -/
def extract_latest_week_data_rows (cols : List String)
    (rows : List (List (Option String))) : List PathRec :=
  rows.filterMap (fun row =>
    if strTrim (mdNameOf cols row (findPathogenCol cols)) = "" ∨
       strTrim (mdNameOf cols row (findPathogenCol cols)) = "合计" ∨
       strTrim (mdNameOf cols row (findPathogenCol cols)) = "总计" then none
    else some ⟨strTrim (mdNameOf cols row (findPathogenCol cols)),
      (match (pickLatestCol ILI_KEYS cols).1 with
       | some c => to_float (mdCell cols row c)
       | none => none),
      (match (pickLatestCol SARI_KEYS cols).1 with
       | some c => to_float (mdCell cols row c)
       | none => none)⟩)

/-! ## The period resolver (`src/extract_surveillance_data.py`) -/

def isLeap (y : Nat) : Bool := y % 4 = 0 ∧ (y % 100 ≠ 0 ∨ y % 400 = 0)

def daysInYear (y : Nat) : Nat := if isLeap y then 366 else 365

/-- Days of the proleptic Gregorian calendar strictly before year `y`
(so `toRD y 1 1 = daysBeforeYear y + 1`; day 1 is 0001-01-01, a Monday). -/
def daysBeforeYear (y : Nat) : Nat :=
  (y - 1) * 365 + (y - 1) / 4 - (y - 1) / 100 + (y - 1) / 400

def daysBeforeMonth (y m : Nat) : Nat :=
  (List.range (m - 1)).foldl (fun acc i => acc + daysInMonth y (i + 1)) 0

/-- Rata-die day number of a calendar date. -/
def toRD (y m d : Nat) : Nat := daysBeforeYear y + daysBeforeMonth y m + d

/-- ISO day of week of a rata-die day, Monday = 1 … Sunday = 7. -/
def dowOfRD (rd : Nat) : Nat := (rd - 1) % 7 + 1

def yearOfRDAux : Nat → Nat → Nat → Nat × Nat
  | 0, y, n => (y, n - daysBeforeYear y)
  | fuel + 1, y, n =>
    if n ≤ daysBeforeYear y + daysInYear y then (y, n - daysBeforeYear y)
    else yearOfRDAux fuel (y + 1) n

def monthDayAux : Nat → Nat → Nat → Nat → Nat × Nat
  | 0, _, m, doy => (m, doy)
  | fuel + 1, y, m, doy =>
    if doy ≤ daysInMonth y m then (m, doy)
    else monthDayAux fuel y (m + 1) (doy - daysInMonth y m)

/-- Calendar date of a rata-die day number. -/
def fromRD (n : Nat) : Nat × Nat × Nat :=
  match yearOfRDAux 64 ((n - 1) / 366 + 1) n with
  | (y, doy) =>
    match monthDayAux 12 y 1 doy with
    | (m, d) => (y, m, d)

/-- Number of ISO weeks in a year (52, or 53 when Jan 1 is a Thursday, or a
Wednesday in a leap year). -/
def isoWeeksInYear (y : Nat) : Nat :=
  if dowOfRD (toRD y 1 1) = 4 ∨ (isLeap y ∧ dowOfRD (toRD y 1 1) = 3) then 53 else 52

/-- `datetime.date.fromisocalendar(y, w, d)`: `none` models the `ValueError`
the source catches (week out of range for the year, or a date outside
`date`'s supported years). -/
def fromisocalendar (y w d : Nat) : Option (Nat × Nat × Nat) :=
  if 1 ≤ y ∧ y ≤ 9999 ∧ 1 ≤ w ∧ w ≤ isoWeeksInYear y ∧ 1 ≤ d ∧ d ≤ 7 then
    let jan4 := toRD y 1 4
    let week1Mon := jan4 - (dowOfRD jan4 - 1)
    let rd := week1Mon + 7 * (w - 1) + (d - 1)
    match fromRD rd with
    | (ry, rm, rdy) => if 1 ≤ ry ∧ ry ≤ 9999 then some (ry, rm, rdy) else none
  else none

def digitChar : Nat → Char
  | 0 => '0' | 1 => '1' | 2 => '2' | 3 => '3' | 4 => '4'
  | 5 => '5' | 6 => '6' | 7 => '7' | 8 => '8' | _ => '9'

def natDigitsRev : Nat → Nat → List Char
  | 0, _ => []
  | fuel + 1, n => if n = 0 then [] else digitChar (n % 10) :: natDigitsRev fuel (n / 10)

def natToStr (n : Nat) : String :=
  if n = 0 then "0" else String.mk (natDigitsRev 20 n).reverse

/-- `f"{n:02d}"`. -/
def pad2 (n : Nat) : String :=
  if n < 10 then String.mk ['0', digitChar n] else natToStr n

/-- `f"{y}-{m:02d}-{d:02d}"` (also `strftime('%Y-%m-%d')` for 4-digit years). -/
def fmtDate (y m d : Nat) : String :=
  natToStr y ++ "-" ++ pad2 m ++ "-" ++ pad2 d

/-- First successful continuation over the backtracking candidates of a
`\d{1,2}` read (greedy: two digits first, then one). -/
def firstSome {α : Type} : List (Nat × List Char) → (Nat → List Char → Option α) → Option α
  | [], _ => none
  | (v, rest) :: more, k =>
    match k v rest with
    | some r => some r
    | none => firstSome more k

/-- `\d{1,2}` candidate reads at this position in backtracking order. -/
def d12 : List Char → List (Nat × List Char)
  | [] => []
  | [a] => if isDigitCh a then [(digitNat a, [])] else []
  | a :: b :: rest =>
    if isDigitCh a then
      if isDigitCh b then [(digitNat a * 10 + digitNat b, rest), (digitNat a, b :: rest)]
      else [(digitNat a, b :: rest)]
    else []

/-- `(\d{4})`: exactly four digits. -/
def digit4 : List Char → Option (Nat × List Char)
  | a :: b :: c :: d :: rest =>
    if isDigitCh a ∧ isDigitCh b ∧ isDigitCh c ∧ isDigitCh d then
      some (digitNat a * 1000 + digitNat b * 100 + digitNat c * 10 + digitNat d, rest)
    else none
  | _ => none

/-- A single literal character. -/
def lit (c : Char) : List Char → Option (List Char)
  | x :: rest => if x = c then some rest else none
  | _ => none

/-- `[（\(]`. -/
def parenOpen : List Char → Option (List Char)
  | x :: rest => if x = '（' ∨ x = '(' then some rest else none
  | _ => none

/-- `[）\)]`. -/
def parenClose : List Char → Option (List Char)
  | x :: rest => if x = '）' ∨ x = ')' then some rest else none
  | _ => none

def hadSpace : List Char → Bool
  | c :: _ => isSpace c
  | [] => false

/-- `\s*[-–—\s]\s*`: either a dash surrounded by optional whitespace, or at
least one whitespace character. -/
def sepMatch (l : List Char) : Option (List Char) :=
  match skipSpaces l with
  | c :: rest =>
    if c = '-' ∨ c = '–' ∨ c = '—' then some (skipSpaces rest)
    else if hadSpace l then some (c :: rest) else none
  | [] => if hadSpace l then some [] else none

/-- `[，,]\s*`. -/
def commaMatch (l : List Char) : Option (List Char) :=
  match l with
  | c :: rest => if c = '，' ∨ c = ',' then some (skipSpaces rest) else none
  | [] => none

/-- `pattern1` of `extract_week_info_from_title`
(`src/extract_surveillance_data.py` line 21), tried at one position:
`(\d{4})年第(\d{1,2})周[（\(](\d{1,2})⽉(\d{1,2})⽇\s*[-–—\s]\s*(\d{1,2})⽉(\d{1,2})⽇[）\)]`.
Note the month/day characters are the Kangxi radicals `⽉` (U+2F49) and `⽇`
(U+2F47), not the usual `月` (U+6708) / `日` (U+65E5). -/
def p1At (l : List Char) : Option (Nat × Nat × Nat × Nat × Nat × Nat) :=
  match digit4 l with
  | none => none
  | some (year, l1) =>
    match lit '年' l1 with
    | none => none
    | some l2 =>
      match lit '第' l2 with
      | none => none
      | some l3 =>
        firstSome (d12 l3) (fun week l4 =>
          match lit '周' l4 with
          | none => none
          | some l5 =>
            match parenOpen l5 with
            | none => none
            | some l6 =>
              firstSome (d12 l6) (fun m1 l7 =>
                match lit '⽉' l7 with
                | none => none
                | some l8 =>
                  firstSome (d12 l8) (fun d1 l9 =>
                    match lit '⽇' l9 with
                    | none => none
                    | some l10 =>
                      match sepMatch l10 with
                      | none => none
                      | some l11 =>
                        firstSome (d12 l11) (fun m2 l12 =>
                          match lit '⽉' l12 with
                          | none => none
                          | some l13 =>
                            firstSome (d12 l13) (fun d2 l14 =>
                              match lit '⽇' l14 with
                              | none => none
                              | some l15 =>
                                match parenClose l15 with
                                | none => none
                                | some _ =>
                                  some (year, week, m1, d1, m2, d2))))))

/-- `pattern2` (cross-year range, line 39):
`(\d{4})年第(\d{1,2})周[（\(](\d{4})年(\d{1,2})⽉(\d{1,2})⽇\s*[-–—\s]\s*(\d{4})年(\d{1,2})⽉(\d{1,2})⽇[）\)]`. -/
def p2At (l : List Char) :
    Option (Nat × Nat × Nat × Nat × Nat × Nat × Nat × Nat) :=
  match digit4 l with
  | none => none
  | some (ry, l1) =>
    match lit '年' l1 with
    | none => none
    | some l2 =>
      match lit '第' l2 with
      | none => none
      | some l3 =>
        firstSome (d12 l3) (fun week l4 =>
          match lit '周' l4 with
          | none => none
          | some l5 =>
            match parenOpen l5 with
            | none => none
            | some l6 =>
              match digit4 l6 with
              | none => none
              | some (sy, l7) =>
                match lit '年' l7 with
                | none => none
                | some l8 =>
                  firstSome (d12 l8) (fun sm l9 =>
                    match lit '⽉' l9 with
                    | none => none
                    | some l10 =>
                      firstSome (d12 l10) (fun sd l11 =>
                        match lit '⽇' l11 with
                        | none => none
                        | some l12 =>
                          match sepMatch l12 with
                          | none => none
                          | some l13 =>
                            match digit4 l13 with
                            | none => none
                            | some (ey, l14) =>
                              match lit '年' l14 with
                              | none => none
                              | some l15 =>
                                firstSome (d12 l15) (fun em l16 =>
                                  match lit '⽉' l16 with
                                  | none => none
                                  | some l17 =>
                                    firstSome (d12 l17) (fun ed l18 =>
                                      match lit '⽇' l18 with
                                      | none => none
                                      | some l19 =>
                                        match parenClose l19 with
                                        | none => none
                                        | some _ =>
                                          some (ry, week, sy, sm, sd, ey, em, ed))))))

/-- `pattern3` (same-year range, the year repeated only on the start date,
line 59):
`(\d{4})年第(\d{1,2})周[（\(](\d{4})年(\d{1,2})⽉(\d{1,2})⽇\s*[-–—\s]\s*(\d{1,2})⽉(\d{1,2})⽇[）\)]`. -/
def p3At (l : List Char) :
    Option (Nat × Nat × Nat × Nat × Nat × Nat × Nat) :=
  match digit4 l with
  | none => none
  | some (ry, l1) =>
    match lit '年' l1 with
    | none => none
    | some l2 =>
      match lit '第' l2 with
      | none => none
      | some l3 =>
        firstSome (d12 l3) (fun week l4 =>
          match lit '周' l4 with
          | none => none
          | some l5 =>
            match parenOpen l5 with
            | none => none
            | some l6 =>
              match digit4 l6 with
              | none => none
              | some (sy, l7) =>
                match lit '年' l7 with
                | none => none
                | some l8 =>
                  firstSome (d12 l8) (fun sm l9 =>
                    match lit '⽉' l9 with
                    | none => none
                    | some l10 =>
                      firstSome (d12 l10) (fun sd l11 =>
                        match lit '⽇' l11 with
                        | none => none
                        | some l12 =>
                          match sepMatch l12 with
                          | none => none
                          | some l13 =>
                            firstSome (d12 l13) (fun em l14 =>
                              match lit '⽉' l14 with
                              | none => none
                              | some l15 =>
                                firstSome (d12 l15) (fun ed l16 =>
                                  match lit '⽇' l16 with
                                  | none => none
                                  | some l17 =>
                                    match parenClose l17 with
                                    | none => none
                                    | some _ =>
                                      some (ry, week, sy, sm, sd, em, ed))))))

/-- `pattern4` (monthly report week range, line 77):
`(\d{4})年(\d{1,2})⽉[（\(]第(\d{1,2})周\s*[-–—\s]\s*(\d{1,2})周[，,]\s*(\d{1,2})⽉(\d{1,2})⽇\s*[-–—\s]\s*(\d{1,2})⽉(\d{1,2})⽇[）\)]`. -/
def p4At (l : List Char) :
    Option (Nat × Nat × Nat × Nat × Nat × Nat × Nat × Nat) :=
  match digit4 l with
  | none => none
  | some (y, l1) =>
    match lit '年' l1 with
    | none => none
    | some l2 =>
      firstSome (d12 l2) (fun mo l3 =>
        match lit '⽉' l3 with
        | none => none
        | some l4 =>
          match parenOpen l4 with
          | none => none
          | some l5 =>
            match lit '第' l5 with
            | none => none
            | some l6 =>
              firstSome (d12 l6) (fun sw l7 =>
                match lit '周' l7 with
                | none => none
                | some l8 =>
                  match sepMatch l8 with
                  | none => none
                  | some l9 =>
                    firstSome (d12 l9) (fun ew l10 =>
                      match lit '周' l10 with
                      | none => none
                      | some l11 =>
                        match commaMatch l11 with
                        | none => none
                        | some l12 =>
                          firstSome (d12 l12) (fun sm l13 =>
                            match lit '⽉' l13 with
                            | none => none
                            | some l14 =>
                              firstSome (d12 l14) (fun sd l15 =>
                                match lit '⽇' l15 with
                                | none => none
                                | some l16 =>
                                  match sepMatch l16 with
                                  | none => none
                                  | some l17 =>
                                    firstSome (d12 l17) (fun em l18 =>
                                      match lit '⽉' l18 with
                                      | none => none
                                      | some l19 =>
                                        firstSome (d12 l19) (fun ed l20 =>
                                          match lit '⽇' l20 with
                                          | none => none
                                          | some l21 =>
                                            match parenClose l21 with
                                            | none => none
                                            | some _ =>
                                              some (y, mo, sw, ew, sm, sd, em, ed))))))))

/-- `pattern5` (bare week marker, line 95): `(\d{4})年第(\d{1,2})周`. -/
def p5At (l : List Char) : Option (Nat × Nat) :=
  match digit4 l with
  | none => none
  | some (year, l1) =>
    match lit '年' l1 with
    | none => none
    | some l2 =>
      match lit '第' l2 with
      | none => none
      | some l3 =>
        firstSome (d12 l3) (fun week l4 =>
          match lit '周' l4 with
          | none => none
          | some _ => some (year, week))

/-- `re.search`: try the matcher at every position, left to right. -/
def searchAt {α : Type} : Nat → (List Char → Option α) → List Char → Option α
  | 0, _, _ => none
  | fuel + 1, m, l =>
    match m l with
    | some r => some r
    | none =>
      match l with
      | [] => none
      | _ :: rest => searchAt fuel m rest

def reSearch {α : Type} (m : List Char → Option α) (s : String) : Option α :=
  searchAt (s.data.length + 1) m s.data

/-- `extract_week_info_from_title`
(`src/extract_surveillance_data.py` lines 14-118): try patterns 1-5 in
order; pattern 5 computes the week's Monday and Sunday from the ISO calendar,
falling back to `(None, None, week)` when `fromisocalendar` raises.
Returns `(reference_date, target_end_date, report_week)`; the week is the
bare int the source returns. -/
def extract_week_info_from_title (text : String) :
    Option String × Option String × Option Nat :=
  match reSearch p1At text with
  | some (year, week, m1, d1, m2, d2) =>
    (some (fmtDate year m1 d1), some (fmtDate year m2 d2), some week)
  | none =>
  match reSearch p2At text with
  | some (_, week, sy, sm, sd, ey, em, ed) =>
    (some (fmtDate sy sm sd), some (fmtDate ey em ed), some week)
  | none =>
  match reSearch p3At text with
  | some (_, week, sy, sm, sd, em, ed) =>
    (some (fmtDate sy sm sd), some (fmtDate sy em ed), some week)
  | none =>
  match reSearch p4At text with
  | some (y, _, sw, _, sm, sd, em, ed) =>
    (some (fmtDate y sm sd), some (fmtDate y em ed), some sw)
  | none =>
  match reSearch p5At text with
  | some (year, week) =>
    match fromisocalendar year week 1, fromisocalendar year week 7 with
    | some (y1, mo1, dd1), some (y2, mo2, dd2) =>
      (some (fmtDate y1 mo1 dd1), some (fmtDate y2 mo2 dd2), some week)
    | _, _ => (none, none, some week)
  | none => (none, none, none)

/-- The `report_week` CSV cell written for a record produced by
`process_surveillance_file`: the `str()` of the bare int week (no year
prefix). -/
def reportWeekCell (w : Option Nat) : Option String := w.map natToStr

/-! ## Theorems -/

theorem natCmp_eq_iff {a b : Nat} : natCmp a b = .eq ↔ a = b := by
  unfold natCmp
  rcases Nat.lt_trichotomy a b with h | h | h
  · rw [if_pos h]; constructor
    · intro he; cases he
    · omega
  · rw [if_neg (by omega), if_neg (by omega)]; simp [h]
  · rw [if_neg (by omega), if_pos h]; constructor
    · intro he; cases he
    · omega

theorem natCmp_lt_iff {a b : Nat} : natCmp a b = .lt ↔ a < b := by
  unfold natCmp
  rcases Nat.lt_trichotomy a b with h | h | h
  · rw [if_pos h]; simp [h]
  · rw [if_neg (by omega), if_neg (by omega)]; constructor
    · intro he; cases he
    · omega
  · rw [if_neg (by omega), if_pos h]; constructor
    · intro he; cases he
    · omega

theorem natCmp_gt_iff {a b : Nat} : natCmp a b = .gt ↔ b < a := by
  unfold natCmp
  rcases Nat.lt_trichotomy a b with h | h | h
  · rw [if_pos h]; constructor
    · intro he; cases he
    · omega
  · rw [if_neg (by omega), if_neg (by omega)]; constructor
    · intro he; cases he
    · omega
  · rw [if_neg (by omega), if_pos h]; simp [h]

theorem natCmp_gt_iff_lt {a b : Nat} : natCmp a b = .gt ↔ natCmp b a = .lt := by
  rw [natCmp_gt_iff, natCmp_lt_iff]

theorem natCmp_lt_trans {a b c : Nat} (h₁ : natCmp a b = .lt) (h₂ : natCmp b c = .lt) :
    natCmp a c = .lt := by
  rw [natCmp_lt_iff] at *
  omega

theorem charCmp_eq_iff {a b : Char} : charCmp a b = .eq ↔ a = b := by
  unfold charCmp
  rw [natCmp_eq_iff]
  exact ⟨fun h => Char.eq_of_val_eq (UInt32.ext h), fun h => by rw [h]⟩

theorem charCmp_gt_iff_lt {a b : Char} : charCmp a b = .gt ↔ charCmp b a = .lt :=
  natCmp_gt_iff_lt

theorem charCmp_lt_trans {a b c : Char} :
    charCmp a b = .lt → charCmp b c = .lt → charCmp a c = .lt :=
  natCmp_lt_trans

theorem charsCmp_eq_iff : ∀ {l₁ l₂ : List Char}, charsCmp l₁ l₂ = .eq ↔ l₁ = l₂
  | [], [] => by simp [charsCmp]
  | [], _ :: _ => by simp [charsCmp]
  | _ :: _, [] => by simp [charsCmp]
  | a :: as, b :: bs => by
    simp only [charsCmp]
    cases h : charCmp a b with
    | eq =>
      have hab : a = b := charCmp_eq_iff.mp h
      simp [hab, charsCmp_eq_iff]
    | lt =>
      have hab : a ≠ b := by
        intro he
        rw [he, charCmp_eq_iff.mpr rfl] at h
        cases h
      simp [hab]
    | gt =>
      have hab : a ≠ b := by
        intro he
        rw [he, charCmp_eq_iff.mpr rfl] at h
        cases h
      simp [hab]

theorem charsCmp_gt_iff_lt : ∀ {l₁ l₂ : List Char},
    charsCmp l₁ l₂ = .gt ↔ charsCmp l₂ l₁ = .lt
  | [], [] => by simp [charsCmp]
  | [], _ :: _ => by simp [charsCmp]
  | _ :: _, [] => by simp [charsCmp]
  | a :: as, b :: bs => by
    simp only [charsCmp]
    cases h : charCmp a b with
    | eq =>
      have hab : a = b := charCmp_eq_iff.mp h
      subst hab
      rw [h]
      exact charsCmp_gt_iff_lt
    | lt =>
      have : charCmp b a ≠ .eq := by
        intro he
        have : b = a := charCmp_eq_iff.mp he
        subst this
        simp [charCmp_eq_iff.mpr rfl] at h
      have hba : charCmp b a = .gt := by
        cases hb : charCmp b a with
        | eq => exact absurd hb this
        | gt => rfl
        | lt => exact absurd (charCmp_gt_iff_lt.mpr h) (by simp [hb])
      simp [hba]
    | gt =>
      have hba : charCmp b a = .lt := charCmp_gt_iff_lt.mp h
      simp [hba]

theorem charsCmp_lt_trans : ∀ {l₁ l₂ l₃ : List Char},
    charsCmp l₁ l₂ = .lt → charsCmp l₂ l₃ = .lt → charsCmp l₁ l₃ = .lt
  | _, [], [] => by simp [charsCmp]
  | [], [], _ :: _ => by simp [charsCmp]
  | a :: as, [], _ :: _ => by simp [charsCmp]
  | [], _ :: _, [] => by simp [charsCmp]
  | _ :: _, _ :: _, [] => by simp [charsCmp]
  | [], _ :: _, _ :: _ => by simp [charsCmp]
  | a :: as, b :: bs, c :: cs => by
    intro h₁ h₂
    simp only [charsCmp] at *
    cases hab : charCmp a b with
    | eq =>
      have : a = b := charCmp_eq_iff.mp hab
      subst this
      rw [hab] at h₁
      cases hac : charCmp a c with
      | eq =>
        have : a = c := charCmp_eq_iff.mp hac
        subst this
        rw [hac] at h₂
        exact charsCmp_lt_trans h₁ h₂
      | lt => rfl
      | gt => rw [hac] at h₂; simp at h₂
    | lt =>
      cases hbc : charCmp b c with
      | eq =>
        have : b = c := charCmp_eq_iff.mp hbc
        subst this
        simp [hab]
      | lt => simp [charCmp_lt_trans hab hbc]
      | gt => rw [hbc] at h₂; simp at h₂
    | gt => rw [hab] at h₁; simp at h₁

theorem strCmp_eq_iff {a b : String} : strCmp a b = .eq ↔ a = b := by
  unfold strCmp
  rw [charsCmp_eq_iff]
  exact ⟨fun h => String.ext h, fun h => by rw [h]⟩

theorem strCmp_gt_iff_lt {a b : String} : strCmp a b = .gt ↔ strCmp b a = .lt :=
  charsCmp_gt_iff_lt

theorem strCmp_lt_trans {a b c : String} :
    strCmp a b = .lt → strCmp b c = .lt → strCmp a c = .lt :=
  charsCmp_lt_trans

theorem dateCmpDesc_eq_iff : ∀ {a b : Option Nat}, dateCmpDesc a b = .eq ↔ a = b
  | none, none => by simp [dateCmpDesc]
  | none, some _ => by simp [dateCmpDesc]
  | some _, none => by simp [dateCmpDesc]
  | some a, some b => by
    simp only [dateCmpDesc, natCmp_eq_iff, Option.some.injEq]
    exact ⟨fun h => h.symm, fun h => h.symm⟩

theorem dateCmpDesc_gt_iff_lt : ∀ {a b : Option Nat},
    dateCmpDesc a b = .gt ↔ dateCmpDesc b a = .lt
  | none, none => by simp [dateCmpDesc]
  | none, some _ => by simp [dateCmpDesc]
  | some _, none => by simp [dateCmpDesc]
  | some a, some b => by simp only [dateCmpDesc]; exact natCmp_gt_iff_lt

theorem dateCmpDesc_lt_trans : ∀ {a b c : Option Nat},
    dateCmpDesc a b = .lt → dateCmpDesc b c = .lt → dateCmpDesc a c = .lt
  | none, none, _ => by intro h₁ _; simp [dateCmpDesc] at h₁
  | none, some _, _ => by intro h₁ _; simp [dateCmpDesc] at h₁
  | some a, none, none => by intro _ h₂; simp [dateCmpDesc] at h₂
  | some a, none, some _ => by intro _ h₂; simp [dateCmpDesc] at h₂
  | some a, some b, none => by intro h₁ h₂; simp [dateCmpDesc]
  | some a, some b, some c => by
    simp only [dateCmpDesc]
    intro h₁ h₂
    exact natCmp_lt_trans h₂ h₁

theorem pathCmpAsc_eq_iff : ∀ {a b : Option String}, pathCmpAsc a b = .eq ↔ a = b
  | none, none => by simp [pathCmpAsc]
  | none, some _ => by simp [pathCmpAsc]
  | some _, none => by simp [pathCmpAsc]
  | some a, some b => by simp only [pathCmpAsc, strCmp_eq_iff, Option.some.injEq]

theorem pathCmpAsc_gt_iff_lt : ∀ {a b : Option String},
    pathCmpAsc a b = .gt ↔ pathCmpAsc b a = .lt
  | none, none => by simp [pathCmpAsc]
  | none, some _ => by simp [pathCmpAsc]
  | some _, none => by simp [pathCmpAsc]
  | some a, some b => by simp only [pathCmpAsc]; exact strCmp_gt_iff_lt

theorem pathCmpAsc_lt_trans : ∀ {a b c : Option String},
    pathCmpAsc a b = .lt → pathCmpAsc b c = .lt → pathCmpAsc a c = .lt
  | none, none, _ => by intro h₁ _; simp [pathCmpAsc] at h₁
  | none, some _, _ => by intro h₁ _; simp [pathCmpAsc] at h₁
  | some a, none, none => by intro _ h₂; simp [pathCmpAsc] at h₂
  | some a, none, some _ => by intro _ h₂; simp [pathCmpAsc] at h₂
  | some a, some b, none => by intro _ _; simp [pathCmpAsc]
  | some a, some b, some c => by
    simp only [pathCmpAsc]
    exact strCmp_lt_trans

theorem keyCmp_eq_iff {k₁ k₂ : Option Nat × Option String} :
    keyCmp k₁ k₂ = .eq ↔ k₁ = k₂ := by
  unfold keyCmp
  cases hd : dateCmpDesc k₁.1 k₂.1 with
  | eq =>
    have h1 : k₁.1 = k₂.1 := dateCmpDesc_eq_iff.mp hd
    rw [pathCmpAsc_eq_iff]
    constructor
    · intro h2; exact Prod.ext h1 h2
    · intro h; rw [h]
  | lt =>
    constructor
    · intro he; cases he
    · intro h; rw [h] at hd; rw [dateCmpDesc_eq_iff.mpr rfl] at hd; cases hd
  | gt =>
    constructor
    · intro he; cases he
    · intro h; rw [h] at hd; rw [dateCmpDesc_eq_iff.mpr rfl] at hd; cases hd

theorem keyCmp_gt_iff_lt {k₁ k₂ : Option Nat × Option String} :
    keyCmp k₁ k₂ = .gt ↔ keyCmp k₂ k₁ = .lt := by
  unfold keyCmp
  cases hd : dateCmpDesc k₁.1 k₂.1 with
  | eq =>
    have h1 : k₁.1 = k₂.1 := dateCmpDesc_eq_iff.mp hd
    rw [h1, dateCmpDesc_eq_iff.mpr rfl]
    exact pathCmpAsc_gt_iff_lt
  | lt =>
    have : dateCmpDesc k₂.1 k₁.1 = .gt := dateCmpDesc_gt_iff_lt.mpr hd
    rw [this]
    constructor <;> (intro he; cases he)
  | gt =>
    have : dateCmpDesc k₂.1 k₁.1 = .lt := dateCmpDesc_gt_iff_lt.mp hd
    rw [this]
    simp

theorem keyCmp_lt_trans {k₁ k₂ k₃ : Option Nat × Option String}
    (h₁ : keyCmp k₁ k₂ = .lt) (h₂ : keyCmp k₂ k₃ = .lt) : keyCmp k₁ k₃ = .lt := by
  unfold keyCmp at *
  cases hd : dateCmpDesc k₁.1 k₂.1 with
  | eq =>
    have e12 : k₁.1 = k₂.1 := dateCmpDesc_eq_iff.mp hd
    rw [hd] at h₁
    cases hd2 : dateCmpDesc k₂.1 k₃.1 with
    | eq =>
      have e23 : k₂.1 = k₃.1 := dateCmpDesc_eq_iff.mp hd2
      rw [hd2] at h₂
      rw [e12, e23, dateCmpDesc_eq_iff.mpr rfl]
      exact pathCmpAsc_lt_trans h₁ h₂
    | lt => rw [e12, hd2]
    | gt => rw [hd2] at h₂; cases h₂
  | lt =>
    cases hd2 : dateCmpDesc k₂.1 k₃.1 with
    | eq =>
      have e23 : k₂.1 = k₃.1 := dateCmpDesc_eq_iff.mp hd2
      rw [← e23, hd]
    | lt => rw [dateCmpDesc_lt_trans hd hd2]
    | gt => rw [hd2] at h₂; cases h₂
  | gt => rw [hd] at h₁; cases h₁

theorem keyCmp_le_trans {k₁ k₂ k₃ : Option Nat × Option String}
    (h₁ : keyCmp k₁ k₂ ≠ .gt) (h₂ : keyCmp k₂ k₃ ≠ .gt) : keyCmp k₁ k₃ ≠ .gt := by
  cases hc : keyCmp k₁ k₂ with
  | gt => exact absurd hc h₁
  | eq =>
    have : k₁ = k₂ := keyCmp_eq_iff.mp hc
    rw [this]; exact h₂
  | lt =>
    cases hc2 : keyCmp k₂ k₃ with
    | gt => exact absurd hc2 h₂
    | eq =>
      have : k₂ = k₃ := keyCmp_eq_iff.mp hc2
      rw [← this]
      intro hg; rw [hc] at hg; cases hg
    | lt =>
      intro hg; rw [keyCmp_lt_trans hc hc2] at hg; cases hg

theorem keyCmp_total (k₁ k₂ : Option Nat × Option String) :
    keyCmp k₁ k₂ ≠ .gt ∨ keyCmp k₂ k₁ ≠ .gt := by
  cases hc : keyCmp k₁ k₂ with
  | gt =>
    right
    intro hg
    rw [keyCmp_gt_iff_lt.mp hc] at hg
    cases hg
  | eq => left; intro hg; cases hg
  | lt => left; intro hg; cases hg

/-- Equivalence under the preorder coincides with equal sort keys. -/
theorem skey_eq_of_le_le {a b : Record} (h₁ : recLe a b) (h₂ : recLe b a) :
    skey a = skey b := by
  cases hc : keyCmp (skey a) (skey b) with
  | eq => exact keyCmp_eq_iff.mp hc
  | gt => exact absurd hc h₁
  | lt => exact absurd (keyCmp_gt_iff_lt.mpr hc) h₂

theorem dedupSeen_cons (s : List (Option String × Option String × Option String))
    (r : Record) (rs : List Record) :
    dedupSeen s (r :: rs) =
      if natKey r ∈ s then dedupSeen s rs else r :: dedupSeen (natKey r :: s) rs := rfl

theorem dedupSeen_congr : ∀ {s s' : List (Option String × Option String × Option String)}
    (_ : ∀ k, k ∈ s ↔ k ∈ s') (l : List Record), dedupSeen s l = dedupSeen s' l
  | _, _, _, [] => rfl
  | s, s', h, r :: rs => by
    rw [dedupSeen_cons, dedupSeen_cons]
    by_cases hk : natKey r ∈ s
    · rw [if_pos hk, if_pos ((h _).mp hk)]
      exact dedupSeen_congr h rs
    · rw [if_neg hk, if_neg (fun hx => hk ((h _).mpr hx))]
      have h' : ∀ k, k ∈ natKey r :: s ↔ k ∈ natKey r :: s' := by
        intro k
        simp only [List.mem_cons]
        exact or_congr Iff.rfl (h k)
      rw [dedupSeen_congr h' rs]

theorem dedupSeen_append (s : List (Option String × Option String × Option String)) :
    ∀ (l₁ l₂ : List Record),
      dedupSeen s (l₁ ++ l₂) = dedupSeen s l₁ ++ dedupSeen (l₁.map natKey ++ s) l₂
  | [], l₂ => by simp [dedupSeen]
  | r :: rs, l₂ => by
    by_cases hk : natKey r ∈ s
    · have lhs : dedupSeen s ((r :: rs) ++ l₂) = dedupSeen s (rs ++ l₂) := by
        rw [List.cons_append, dedupSeen_cons, if_pos hk]
      have rhs : dedupSeen s (r :: rs) = dedupSeen s rs := by
        rw [dedupSeen_cons, if_pos hk]
      rw [lhs, rhs, dedupSeen_append s rs l₂, List.map_cons, List.cons_append]
      have h' : ∀ k, k ∈ rs.map natKey ++ s ↔ k ∈ natKey r :: (rs.map natKey ++ s) := by
        intro k
        simp only [List.mem_cons, List.mem_append]
        constructor
        · intro h; right; exact h
        · rintro (h | h)
          · subst h; right; exact hk
          · exact h
      rw [dedupSeen_congr h' l₂]
    · have lhs : dedupSeen s ((r :: rs) ++ l₂) = r :: dedupSeen (natKey r :: s) (rs ++ l₂) := by
        rw [List.cons_append, dedupSeen_cons, if_neg hk]
      have rhs : dedupSeen s (r :: rs) = r :: dedupSeen (natKey r :: s) rs := by
        rw [dedupSeen_cons, if_neg hk]
      rw [lhs, rhs, dedupSeen_append (natKey r :: s) rs l₂, List.map_cons, List.cons_append]
      have h' : ∀ k, k ∈ rs.map natKey ++ natKey r :: s ↔
          k ∈ natKey r :: (rs.map natKey ++ s) := by
        intro k
        simp only [List.mem_cons, List.mem_append]
        tauto
      rw [dedupSeen_congr h' l₂]
      simp

theorem mem_dedupSeen {x : Record} :
    ∀ {s : List (Option String × Option String × Option String)} {l : List Record},
      x ∈ dedupSeen s l → x ∈ l ∧ natKey x ∉ s
  | _, [], h => by cases h
  | s, r :: rs, h => by
    rw [dedupSeen_cons] at h
    by_cases hk : natKey r ∈ s
    · rw [if_pos hk] at h
      have := mem_dedupSeen h
      exact ⟨List.mem_cons_of_mem _ this.1, this.2⟩
    · rw [if_neg hk] at h
      rcases List.mem_cons.mp h with he | ht
      · subst he; exact ⟨List.mem_cons_self _ _, hk⟩
      · have := mem_dedupSeen ht
        refine ⟨List.mem_cons_of_mem _ this.1, fun hx => this.2 ?_⟩
        exact List.mem_cons_of_mem _ hx

/-- The key class of `k` in the dedup output is the first occurrence of `k`
in the input (if the key was not already marked as seen). -/
theorem dedupSeen_filter_key (k : Option String × Option String × Option String) :
    ∀ (s : List (Option String × Option String × Option String)) (l : List Record),
      (dedupSeen s l).filter (fun r => decide (natKey r = k)) =
        if k ∈ s then [] else (l.filter (fun r => decide (natKey r = k))).take 1
  | s, [] => by simp [dedupSeen]
  | s, r :: rs => by
    rw [dedupSeen_cons]
    by_cases hk : natKey r ∈ s
    · rw [if_pos hk]
      rw [dedupSeen_filter_key k s rs]
      by_cases hks : k ∈ s
      · simp [hks]
      · have hrk : ¬ natKey r = k := fun he => hks (he ▸ hk)
        simp only [if_neg hks, List.filter_cons]
        simp [hrk]
    · rw [if_neg hk]
      by_cases hrk : natKey r = k
      · subst hrk
        rw [if_neg hk]
        have hin : natKey r ∈ natKey r :: s := List.mem_cons_self _ _
        have hfilter := dedupSeen_filter_key (natKey r) (natKey r :: s) rs
        rw [if_pos hin] at hfilter
        simp [List.filter_cons, hfilter]
      · simp only [List.filter_cons, decide_eq_true_eq]
        rw [if_neg hrk, if_neg hrk]
        rw [dedupSeen_filter_key k (natKey r :: s) rs]
        have hmem : (k ∈ natKey r :: s) ↔ k ∈ s := by
          simp only [List.mem_cons]
          constructor
          · rintro (h | h)
            · exact absurd h (fun he => hrk he.symm)
            · exact h
          · intro h; right; exact h
        by_cases hks : k ∈ s
        · simp [hmem, hks]
        · simp [hmem, hks]

/-- On a list whose keys are pairwise distinct, dedup only removes the rows
whose key was already seen. -/
theorem dedupSeen_of_nodup_keys :
    ∀ {l : List Record} (_ : (l.map natKey).Nodup)
      (s : List (Option String × Option String × Option String)),
      dedupSeen s l = l.filter (fun r => decide (natKey r ∉ s))
  | [], _, s => rfl
  | r :: rs, h, s => by
    rw [dedupSeen_cons]
    have hnd : (rs.map natKey).Nodup := (List.nodup_cons.mp (by simpa using h)).2
    have hrk : natKey r ∉ rs.map natKey := (List.nodup_cons.mp (by simpa using h)).1
    by_cases hk : natKey r ∈ s
    · rw [if_pos hk, dedupSeen_of_nodup_keys hnd s]
      simp only [List.filter_cons]
      simp [hk]
    · rw [if_neg hk, dedupSeen_of_nodup_keys hnd (natKey r :: s)]
      simp only [List.filter_cons]
      simp only [decide_eq_true_eq, decide_not]
      rw [if_pos (by simpa using hk)]
      congr 1
      apply List.filter_congr
      intro x hx
      have hxr : natKey x ≠ natKey r := by
        intro he
        exact hrk (he ▸ List.mem_map_of_mem natKey hx)
      simp [hxr]

theorem dedupSeen_keys_nodup :
    ∀ (s : List (Option String × Option String × Option String)) (l : List Record),
      ((dedupSeen s l).map natKey).Nodup
  | s, [] => by simp [dedupSeen]
  | s, r :: rs => by
    rw [dedupSeen_cons]
    by_cases hk : natKey r ∈ s
    · rw [if_pos hk]; exact dedupSeen_keys_nodup s rs
    · rw [if_neg hk]
      simp only [List.map_cons, List.nodup_cons]
      refine ⟨?_, dedupSeen_keys_nodup (natKey r :: s) rs⟩
      intro hmem
      rcases List.mem_map.mp hmem with ⟨x, hx, he⟩
      have := (mem_dedupSeen hx).2
      rw [he] at this
      exact this (List.mem_cons_self _ _)

theorem recLe_of_skey_eq {a b : Record} (h : skey a = skey b) : recLe a b := by
  unfold recLe
  rw [h, keyCmp_eq_iff.mpr rfl]
  intro hg; cases hg

theorem filter_orderedInsert (k : Option Nat × Option String) (p : Record → Bool)
    (hp : ∀ x, p x = true → skey x = k) (a : Record) :
    ∀ l : List Record,
      (List.orderedInsert recLe a l).filter p =
        if p a then a :: l.filter p else l.filter p
  | [] => by
    simp only [List.orderedInsert, List.filter_cons, List.filter_nil]
  | b :: t => by
    simp only [List.orderedInsert]
    by_cases hab : recLe a b
    · rw [if_pos hab]
      simp only [List.filter_cons]
    · rw [if_neg hab]
      simp only [List.filter_cons]
      by_cases hpa : p a = true
      · have hpb : ¬ p b = true := by
          intro hpb
          exact hab (recLe_of_skey_eq ((hp a hpa).trans (hp b hpb).symm))
        rw [if_neg hpb, filter_orderedInsert k p hp a t, if_pos hpa, if_pos hpa, if_neg hpb]
      · rw [filter_orderedInsert k p hp a t, if_neg hpa, if_neg hpa]

theorem filter_insertionSort (k : Option Nat × Option String) (p : Record → Bool)
    (hp : ∀ x, p x = true → skey x = k) :
    ∀ l : List Record, (List.insertionSort recLe l).filter p = l.filter p
  | [] => rfl
  | x :: l => by
    simp only [List.insertionSort]
    rw [filter_orderedInsert k p hp x (List.insertionSort recLe l),
      filter_insertionSort k p hp l]
    simp only [List.filter_cons]

/-- A list sorted by the (total, transitive) preorder `recLe` is uniquely
determined by its tie classes. -/
theorem sorted_eq_of_filter_skey :
    ∀ {S₁ S₂ : List Record}, List.Sorted recLe S₁ → List.Sorted recLe S₂ →
      (∀ k, S₁.filter (fun r => decide (skey r = k)) =
            S₂.filter (fun r => decide (skey r = k))) →
      S₁ = S₂
  | [], [], _, _, _ => rfl
  | [], b :: t₂, _, _, hf => by
    have hb : b ∈ List.filter (fun r => decide (skey r = skey b)) (b :: t₂) :=
      List.mem_filter.mpr ⟨List.mem_cons_self _ _, by simp⟩
    rw [← hf (skey b)] at hb
    cases hb
  | a :: t₁, [], _, _, hf => by
    have ha : a ∈ List.filter (fun r => decide (skey r = skey a)) (a :: t₁) :=
      List.mem_filter.mpr ⟨List.mem_cons_self _ _, by simp⟩
    rw [hf (skey a)] at ha
    cases ha
  | a :: t₁, b :: t₂, h₁, h₂, hf => by
    have hmem_a : a ∈ b :: t₂ := by
      have ha : a ∈ List.filter (fun r => decide (skey r = skey a)) (a :: t₁) :=
        List.mem_filter.mpr ⟨List.mem_cons_self _ _, by simp⟩
      rw [hf (skey a)] at ha
      exact List.mem_of_mem_filter ha
    have hmem_b : b ∈ a :: t₁ := by
      have hb : b ∈ List.filter (fun r => decide (skey r = skey b)) (b :: t₂) :=
        List.mem_filter.mpr ⟨List.mem_cons_self _ _, by simp⟩
      rw [← hf (skey b)] at hb
      exact List.mem_of_mem_filter hb
    have hsk : skey a = skey b := by
      rcases List.mem_cons.mp hmem_a with he | ha
      · rw [he]
      · rcases List.mem_cons.mp hmem_b with he | hb
        · rw [he]
        · exact skey_eq_of_le_le (List.rel_of_sorted_cons h₁ b hb)
            (List.rel_of_sorted_cons h₂ a ha)
    have hhead := hf (skey a)
    rw [List.filter_cons, List.filter_cons] at hhead
    simp only [decide_eq_true_eq] at hhead
    rw [if_pos trivial, if_pos hsk.symm] at hhead
    injection hhead with hab htail
    have htf : ∀ k, t₁.filter (fun r => decide (skey r = k)) =
        t₂.filter (fun r => decide (skey r = k)) := by
      intro k
      by_cases hk : k = skey a
      · subst hk
        exact htail
      · have h := hf k
        rw [List.filter_cons, List.filter_cons] at h
        simp only [decide_eq_true_eq] at h
        rw [if_neg (fun he => hk he.symm), if_neg (fun he => hk (he.symm.trans hsk.symm))] at h
        exact h
    have := sorted_eq_of_filter_skey (List.sorted_cons.mp h₁).2 (List.sorted_cons.mp h₂).2 htf
    rw [hab, this]

theorem recLe_total (a b : Record) : recLe a b ∨ recLe b a :=
  keyCmp_total (skey a) (skey b)

theorem recLe_trans {a b c : Record} (h₁ : recLe a b) (h₂ : recLe b c) : recLe a c :=
  keyCmp_le_trans h₁ h₂

theorem sorted_insertionSort_recLe (l : List Record) :
    List.Sorted recLe (List.insertionSort recLe l) := by
  haveI : IsTotal Record recLe := ⟨recLe_total⟩
  haveI : IsTrans Record recLe := ⟨fun _ _ _ => recLe_trans⟩
  exact List.sorted_insertionSort recLe l

theorem mergeMain_perm (batch hist : List Record) :
    List.Perm (mergeMain batch hist) (dedupKey (batch ++ hist)) :=
  List.perm_insertionSort recLe _

theorem mem_of_mem_mergeMain {r : Record} {batch hist : List Record}
    (h : r ∈ mergeMain batch hist) : r ∈ batch ++ hist :=
  ((mem_dedupSeen ((mergeMain_perm batch hist).mem_iff.mp h))).1

/-- The key class of `k` in the merged table is (up to the re-sort) the first
occurrence of `k` in `new ++ old`. -/
theorem mergeMain_filter_key_perm (batch hist : List Record)
    (k : Option String × Option String × Option String) :
    List.Perm ((mergeMain batch hist).filter (fun r => decide (natKey r = k)))
      (((batch ++ hist).filter (fun r => decide (natKey r = k))).take 1) := by
  have hperm := (mergeMain_perm batch hist).filter (fun r => decide (natKey r = k))
  have hd := dedupSeen_filter_key k [] (batch ++ hist)
  rw [if_neg (by simp)] at hd
  unfold dedupKey at hperm
  rw [hd] at hperm
  exact hperm

/-- In a list with pairwise-distinct keys, the key class of a member is
exactly that member. -/
theorem filter_key_of_nodup :
    ∀ {l : List Record} (_ : (l.map natKey).Nodup) {h : Record} (_ : h ∈ l),
      l.filter (fun r => decide (natKey r = natKey h)) = [h]
  | [], _, _, hh => by cases hh
  | x :: xs, hnd, h, hh => by
    have hx1 : natKey x ∉ xs.map natKey := (List.nodup_cons.mp (by simpa using hnd)).1
    have hx2 : (xs.map natKey).Nodup := (List.nodup_cons.mp (by simpa using hnd)).2
    rcases List.mem_cons.mp hh with he | hmem
    · subst he
      rw [List.filter_cons, if_pos (by simp)]
      have : xs.filter (fun r => decide (natKey r = natKey h)) = [] := by
        apply List.filter_eq_nil_iff.mpr
        intro y hy
        simp only [decide_eq_true_eq]
        intro he
        exact hx1 (he ▸ List.mem_map_of_mem natKey hy)
      rw [this]
    · have hne : ¬ natKey x = natKey h := by
        intro he
        exact hx1 (he ▸ List.mem_map_of_mem natKey hmem)
      rw [List.filter_cons, if_neg (by simpa using hne)]
      exact filter_key_of_nodup hx2 hmem

/-- **C1.** New data wins deterministically on conflict: if the batch contains
a record with natural key `k` (with `b` its first such record) and the
existing history also contains a record with key `k`, then after the merge the
historical table has exactly one record with key `k`, namely `b`. -/
theorem mergeMain_new_wins (batch hist : List Record)
    (k : Option String × Option String × Option String) (b : Record)
    (hb : (batch.filter (fun r => decide (natKey r = k))).head? = some b)
    (h : Record) (hh : h ∈ hist) (hhk : natKey h = k) :
    (mergeMain batch hist).filter (fun r => decide (natKey r = k)) = [b] := by
  obtain ⟨t, ht⟩ : ∃ t, batch.filter (fun r => decide (natKey r = k)) = b :: t := by
    cases hfb : batch.filter (fun r => decide (natKey r = k)) with
    | nil => rw [hfb] at hb; cases hb
    | cons x xs =>
      rw [hfb] at hb
      simp only [List.head?_cons, Option.some.injEq] at hb
      exact ⟨xs, by rw [hb]⟩
  have hperm := mergeMain_filter_key_perm batch hist k
  rw [List.filter_append, ht] at hperm
  simp only [List.cons_append, List.take_succ_cons, List.take_zero] at hperm
  exact hperm.eq_singleton

/-- Closed witness for `mergeMain_new_wins`: the spec's own example, a history
record with key `(2025-01-05, 2025-01-11, 新型冠状病毒)` and `ili_percent=5.0`
superseded by a batch record with the same key and `ili_percent=6.2`. -/
theorem mergeMain_new_wins_witness :
    (mergeMain
        [⟨some "2025-01-05", some "2025-01-11", some "2025-01", some "新型冠状病毒",
          some "6.2", none⟩]
        [⟨some "2025-01-05", some "2025-01-11", some "2025-01", some "新型冠状病毒",
          some "5.0", none⟩]).filter
      (fun r => decide (natKey r =
        (some "2025-01-05", some "2025-01-11", some "新型冠状病毒"))) =
    [⟨some "2025-01-05", some "2025-01-11", some "2025-01", some "新型冠状病毒",
      some "6.2", none⟩] :=
  mergeMain_new_wins
    [⟨some "2025-01-05", some "2025-01-11", some "2025-01", some "新型冠状病毒",
      some "6.2", none⟩]
    [⟨some "2025-01-05", some "2025-01-11", some "2025-01", some "新型冠状病毒",
      some "5.0", none⟩]
    (some "2025-01-05", some "2025-01-11", some "新型冠状病毒")
    ⟨some "2025-01-05", some "2025-01-11", some "2025-01", some "新型冠状病毒",
      some "6.2", none⟩
    (by decide)
    ⟨some "2025-01-05", some "2025-01-11", some "2025-01", some "新型冠状病毒",
      some "5.0", none⟩
    (by decide) (by decide)

/-- **C10.** Frame property of the merge: a history record whose key does not
occur in the batch survives the merge unchanged (assuming the historical
table, as produced by previous merges, has pairwise-distinct keys); its key
class in the merged table is exactly that record. -/
theorem mergeMain_frame (batch hist : List Record) (h : Record)
    (hnd : (hist.map natKey).Nodup) (hh : h ∈ hist)
    (hnb : natKey h ∉ batch.map natKey) :
    (mergeMain batch hist).filter (fun r => decide (natKey r = natKey h)) = [h] := by
  have hperm := mergeMain_filter_key_perm batch hist (natKey h)
  rw [List.filter_append] at hperm
  have hfb : batch.filter (fun r => decide (natKey r = natKey h)) = [] := by
    apply List.filter_eq_nil_iff.mpr
    intro y hy
    simp only [decide_eq_true_eq]
    intro he
    exact hnb (he ▸ List.mem_map_of_mem natKey hy)
  rw [hfb, filter_key_of_nodup hnd hh] at hperm
  simp only [List.nil_append, List.take_succ_cons, List.take_zero] at hperm
  exact hperm.eq_singleton

/-- Closed witness for `mergeMain_frame`: a history record for a different
week survives a merge of an unrelated batch record untouched. -/
theorem mergeMain_frame_witness :
    (mergeMain
        [⟨some "2025-01-12", some "2025-01-18", some "2025-02", some "流感病毒",
          some "3.1", none⟩]
        [⟨some "2025-01-05", some "2025-01-11", some "2025-01", some "新型冠状病毒",
          some "5.0", none⟩]).filter
      (fun r => decide (natKey r =
        natKey ⟨some "2025-01-05", some "2025-01-11", some "2025-01",
          some "新型冠状病毒", some "5.0", none⟩)) =
    [⟨some "2025-01-05", some "2025-01-11", some "2025-01", some "新型冠状病毒",
      some "5.0", none⟩] :=
  mergeMain_frame
    [⟨some "2025-01-12", some "2025-01-18", some "2025-02", some "流感病毒",
      some "3.1", none⟩]
    [⟨some "2025-01-05", some "2025-01-11", some "2025-01", some "新型冠状病毒",
      some "5.0", none⟩]
    ⟨some "2025-01-05", some "2025-01-11", some "2025-01", some "新型冠状病毒",
      some "5.0", none⟩
    (by decide) (by decide) (by decide)

/-- **C3.** Sort invariant: after a merge of well-formed rows, the historical
table is non-increasing in `reference_date` (encoded dates), records with a
null `reference_date` come after all records with a non-null one, and rows
with equal `reference_date` are non-decreasing in `pathogen` (code-point
string order, `strCmp _ _ ≠ .gt`). -/
theorem mergeMain_sorted (batch hist : List Record)
    (hwf : ∀ r ∈ batch ++ hist, wfRecord r = true)
    (i j : Fin (mergeMain batch hist).length) (hij : i < j) :
    (∀ a b, sortDate ((mergeMain batch hist).get i) = some a →
        sortDate ((mergeMain batch hist).get j) = some b → b ≤ a) ∧
    (((mergeMain batch hist).get i).reference_date = none →
        ((mergeMain batch hist).get j).reference_date = none) ∧
    (((mergeMain batch hist).get i).reference_date =
        ((mergeMain batch hist).get j).reference_date →
      ∀ p q, ((mergeMain batch hist).get i).pathogen = some p →
        ((mergeMain batch hist).get j).pathogen = some q → strCmp p q ≠ .gt) := by
  have hsorted : List.Sorted recLe (mergeMain batch hist) :=
    sorted_insertionSort_recLe _
  have hle : recLe ((mergeMain batch hist).get i) ((mergeMain batch hist).get j) :=
    hsorted.rel_get_of_lt hij
  set ri := (mergeMain batch hist).get i with hri
  set rj := (mergeMain batch hist).get j with hrj
  have hwfj : wfRecord rj = true :=
    hwf rj (mem_of_mem_mergeMain (by rw [hrj]; exact List.get_mem _ _ _))
  unfold recLe keyCmp at hle
  refine ⟨?_, ?_, ?_⟩
  · intro a b ha hb
    rw [show skey ri = (sortDate ri, ri.pathogen) from rfl,
      show skey rj = (sortDate rj, rj.pathogen) from rfl, ha, hb] at hle
    simp only [dateCmpDesc] at hle
    cases hnc : natCmp b a with
    | gt =>
      rw [hnc] at hle
      exact absurd rfl hle
    | lt => exact Nat.le_of_lt (natCmp_lt_iff.mp hnc)
    | eq => exact Nat.le_of_eq (natCmp_eq_iff.mp hnc)
  · intro hnone
    have hsd : sortDate ri = none := by
      unfold sortDate
      rw [hnone]
      rfl
    rw [show skey ri = (sortDate ri, ri.pathogen) from rfl,
      show skey rj = (sortDate rj, rj.pathogen) from rfl, hsd] at hle
    cases hsj : sortDate rj with
    | some v =>
      rw [hsj] at hle
      simp only [dateCmpDesc] at hle
      exact absurd rfl hle
    | none =>
      unfold wfRecord at hwfj
      cases hrd : rj.reference_date with
      | none => rfl
      | some s =>
        rw [hrd] at hwfj
        simp only [Bool.and_eq_true] at hwfj
        have hps : (parseISODate s).isSome = true := hwfj.1
        unfold sortDate at hsj
        rw [hrd] at hsj
        simp at hsj
        rw [hsj] at hps
        cases hps
  · intro heq p q hp hq
    have hsd : sortDate ri = sortDate rj := by
      unfold sortDate
      rw [heq]
    rw [show skey ri = (sortDate ri, ri.pathogen) from rfl,
      show skey rj = (sortDate rj, rj.pathogen) from rfl, hsd,
      hp, hq] at hle
    have hdd : dateCmpDesc (sortDate rj) (sortDate rj) = .eq := dateCmpDesc_eq_iff.mpr rfl
    rw [hdd] at hle
    exact hle

/-- Closed witness for `mergeMain_sorted`: two rows of different weeks merged
into an empty history end up date-descending with the newer week first. -/
theorem mergeMain_sorted_witness :
    (∀ a b, sortDate ((mergeMain
        [⟨some "2025-01-05", some "2025-01-11", some "2025-01", some "新型冠状病毒",
          some "6.2", none⟩,
         ⟨some "2025-01-12", some "2025-01-18", some "2025-02", some "流感病毒",
          some "3.1", none⟩] []).get ⟨0, by decide⟩) = some a →
      sortDate ((mergeMain
        [⟨some "2025-01-05", some "2025-01-11", some "2025-01", some "新型冠状病毒",
          some "6.2", none⟩,
         ⟨some "2025-01-12", some "2025-01-18", some "2025-02", some "流感病毒",
          some "3.1", none⟩] []).get ⟨1, by decide⟩) = some b → b ≤ a) ∧
    (((mergeMain
        [⟨some "2025-01-05", some "2025-01-11", some "2025-01", some "新型冠状病毒",
          some "6.2", none⟩,
         ⟨some "2025-01-12", some "2025-01-18", some "2025-02", some "流感病毒",
          some "3.1", none⟩] []).get ⟨0, by decide⟩).reference_date = none →
      ((mergeMain
        [⟨some "2025-01-05", some "2025-01-11", some "2025-01", some "新型冠状病毒",
          some "6.2", none⟩,
         ⟨some "2025-01-12", some "2025-01-18", some "2025-02", some "流感病毒",
          some "3.1", none⟩] []).get ⟨1, by decide⟩).reference_date = none) ∧
    (((mergeMain
        [⟨some "2025-01-05", some "2025-01-11", some "2025-01", some "新型冠状病毒",
          some "6.2", none⟩,
         ⟨some "2025-01-12", some "2025-01-18", some "2025-02", some "流感病毒",
          some "3.1", none⟩] []).get ⟨0, by decide⟩).reference_date =
        ((mergeMain
        [⟨some "2025-01-05", some "2025-01-11", some "2025-01", some "新型冠状病毒",
          some "6.2", none⟩,
         ⟨some "2025-01-12", some "2025-01-18", some "2025-02", some "流感病毒",
          some "3.1", none⟩] []).get ⟨1, by decide⟩).reference_date →
      ∀ p q, ((mergeMain
        [⟨some "2025-01-05", some "2025-01-11", some "2025-01", some "新型冠状病毒",
          some "6.2", none⟩,
         ⟨some "2025-01-12", some "2025-01-18", some "2025-02", some "流感病毒",
          some "3.1", none⟩] []).get ⟨0, by decide⟩).pathogen = some p →
        ((mergeMain
        [⟨some "2025-01-05", some "2025-01-11", some "2025-01", some "新型冠状病毒",
          some "6.2", none⟩,
         ⟨some "2025-01-12", some "2025-01-18", some "2025-02", some "流感病毒",
          some "3.1", none⟩] []).get ⟨1, by decide⟩).pathogen = some q →
        strCmp p q ≠ .gt) :=
  mergeMain_sorted
    [⟨some "2025-01-05", some "2025-01-11", some "2025-01", some "新型冠状病毒",
      some "6.2", none⟩,
     ⟨some "2025-01-12", some "2025-01-18", some "2025-02", some "流感病毒",
      some "3.1", none⟩] []
    (by decide) ⟨0, by decide⟩ ⟨1, by decide⟩ (by decide)

/-- Keys of a merged table are pairwise distinct. -/
theorem mergeMain_keys_nodup (batch hist : List Record) :
    ((mergeMain batch hist).map natKey).Nodup := by
  have h1 : ((dedupKey (batch ++ hist)).map natKey).Nodup := dedupSeen_keys_nodup [] _
  have hp2 : List.Perm ((mergeMain batch hist).map natKey)
      ((dedupKey (batch ++ hist)).map natKey) := (mergeMain_perm batch hist).map natKey
  exact hp2.nodup_iff.mpr h1

/-- **C2.** Idempotence of the merge: merging the same batch a second time
into the already-merged table changes nothing. -/
theorem mergeMain_idem (batch hist : List Record) :
    mergeMain batch (mergeMain batch hist) = mergeMain batch hist := by
  have hp : ∀ (k : Option Nat × Option String) (x : Record),
      (fun r => decide (skey r = k)) x = true → skey x = k := by
    intro k x hx
    exact of_decide_eq_true hx
  apply sorted_eq_of_filter_skey (sorted_insertionSort_recLe _) (sorted_insertionSort_recLe _)
  intro k
  rw [filter_insertionSort k _ (hp k), filter_insertionSort k _ (hp k)]
  have hsplit : dedupKey (batch ++ mergeMain batch hist) =
      dedupKey batch ++ dedupSeen (batch.map natKey) (mergeMain batch hist) := by
    unfold dedupKey
    rw [dedupSeen_append, List.append_nil]
  have hrest : dedupSeen (batch.map natKey) (mergeMain batch hist) =
      (mergeMain batch hist).filter (fun r => decide (natKey r ∉ batch.map natKey)) :=
    dedupSeen_of_nodup_keys (mergeMain_keys_nodup batch hist) _
  rw [hsplit, hrest, List.filter_append, List.filter_filter]
  have hH1eq : mergeMain batch hist =
      List.insertionSort recLe (dedupKey batch ++ dedupSeen (batch.map natKey) hist) := by
    unfold mergeMain dedupKey
    rw [dedupSeen_append, List.append_nil]
  have hfH1 : ∀ (p : Record → Bool), (∀ x, p x = true → skey x = k) →
      (mergeMain batch hist).filter p =
        (dedupKey batch).filter p ++ (dedupSeen (batch.map natKey) hist).filter p := by
    intro p hp'
    rw [hH1eq, filter_insertionSort k p hp', List.filter_append]
  rw [hfH1 (fun a => decide (skey a = k) && decide (natKey a ∉ batch.map natKey))
      (by
        intro x hx
        rw [Bool.and_eq_true] at hx
        exact of_decide_eq_true hx.1)]
  have hzb : (dedupKey batch).filter
      (fun a => decide (skey a = k) && decide (natKey a ∉ batch.map natKey)) = [] := by
    apply List.filter_eq_nil_iff.mpr
    intro x hx
    have hxb : x ∈ batch := (mem_dedupSeen hx).1
    have : natKey x ∈ batch.map natKey := List.mem_map_of_mem natKey hxb
    simp [this]
  have hcongr : (dedupSeen (batch.map natKey) hist).filter
      (fun a => decide (skey a = k) && decide (natKey a ∉ batch.map natKey)) =
      (dedupSeen (batch.map natKey) hist).filter (fun a => decide (skey a = k)) := by
    apply List.filter_congr
    intro x hx
    have : natKey x ∉ batch.map natKey := (mem_dedupSeen hx).2
    simp [this]
  rw [hzb, hcongr, List.nil_append]
  have hsplit2 : dedupKey (batch ++ hist) =
      dedupKey batch ++ dedupSeen (batch.map natKey) hist := by
    unfold dedupKey
    rw [dedupSeen_append, List.append_nil]
  rw [hsplit2, List.filter_append]

/-- **C4, counterexample.** The persisted covid table is *not* a pure
function of the just-updated historical table: with a history holding one
covid record, no covid file, and an empty batch, the merge leaves the covid
file absent while recomputing from the updated history would produce that
record. -/
theorem covid_table_not_recomputed :
    (merge_to_main_data []
        ⟨some [⟨some "2025-01-05", some "2025-01-11", some "2025-01",
            some "新型冠状病毒", some "5.0", none⟩], none⟩ false).2.covidTable = none ∧
    covidRecompute (mergeAllStep []
        (some [⟨some "2025-01-05", some "2025-01-11", some "2025-01",
            some "新型冠状病毒", some "5.0", none⟩])) =
      [⟨some "2025-01-05", some "2025-01-11", some "2025-01",
          some "新型冠状病毒", some "5.0", none⟩] ∧
    (merge_to_main_data []
        ⟨some [⟨some "2025-01-05", some "2025-01-11", some "2025-01",
            some "新型冠状病毒", some "5.0", none⟩], none⟩ false).2.covidTable ≠
      some (covidRecompute (mergeAllStep []
        (some [⟨some "2025-01-05", some "2025-01-11", some "2025-01",
            some "新型冠状病毒", some "5.0", none⟩]))) := by
  refine ⟨rfl, by decide, ?_⟩
  intro h
  cases h

/-- **C4, amended.** The covid table after a successful merge is computed
from the covid-filtered batch and the *prior* covid table alone (dedup by the
natural key, new first, then a date-only descending sort); in particular it
is independent of the historical table. -/
theorem covid_table_from_batch_and_prior (batch : List Record)
    (allT allT2 covidT : Option (List Record)) :
    (merge_to_main_data batch ⟨allT, covidT⟩ false).2.covidTable =
      mergeCovidStep batch covidT ∧
    (merge_to_main_data batch ⟨allT, covidT⟩ false).2.covidTable =
      (merge_to_main_data batch ⟨allT2, covidT⟩ false).2.covidTable :=
  ⟨rfl, rfl⟩

/-- **C5, counterexample.** The merge is not all-or-nothing: when the covid
write fails, the historical table has already been rewritten while the covid
table keeps its previous contents, so the two persisted tables diverge
(the success path would have written the batch's covid row). -/
theorem merge_write_failure_not_atomic :
    (merge_to_main_data
        [⟨some "2025-01-05", some "2025-01-11", some "2025-01",
          some "新型冠状病毒", some "6.2", none⟩] ⟨some [], some []⟩ true).1 = false ∧
    (merge_to_main_data
        [⟨some "2025-01-05", some "2025-01-11", some "2025-01",
          some "新型冠状病毒", some "6.2", none⟩] ⟨some [], some []⟩ true).2.allTable =
      some [⟨some "2025-01-05", some "2025-01-11", some "2025-01",
          some "新型冠状病毒", some "6.2", none⟩] ∧
    (merge_to_main_data
        [⟨some "2025-01-05", some "2025-01-11", some "2025-01",
          some "新型冠状病毒", some "6.2", none⟩] ⟨some [], some []⟩ true).2.covidTable =
      some [] ∧
    (merge_to_main_data
        [⟨some "2025-01-05", some "2025-01-11", some "2025-01",
          some "新型冠状病毒", some "6.2", none⟩] ⟨some [], some []⟩ false).2.covidTable =
      some [⟨some "2025-01-05", some "2025-01-11", some "2025-01",
          some "新型冠状病毒", some "6.2", none⟩] := by
  refine ⟨rfl, by decide, rfl, by decide⟩

/-- **C5, amended.** A write failure during the covid step is reported to
the caller (`False` return, not swallowed), but the invocation is not
transactional: the historical table is left updated and the covid table is
left at its previous version. -/
theorem merge_write_failure_reported (batch : List Record) (fs : FileState) :
    (merge_to_main_data batch fs true).1 = false ∧
    (merge_to_main_data batch fs true).2.allTable =
      some (mergeAllStep batch fs.allTable) ∧
    (merge_to_main_data batch fs true).2.covidTable = fs.covidTable :=
  ⟨rfl, rfl, rfl⟩

/-! ## Table scoring and selection -/

theorem scoreTable_nonneg (df : DFrame) : 0 ≤ scoreTable df := by
  have hm : (0 : Int) ≤ Int.ofNat (min df.rows.length 10) := Int.ofNat_nonneg _
  unfold scoreTable
  refine add_nonneg (add_nonneg (add_nonneg (add_nonneg ?_ ?_) ?_) ?_) hm
  · split <;> omega
  · split <;> omega
  · split <;> omega
  · split
    · dsimp only
      refine add_nonneg (add_nonneg ?_ ?_) ?_ <;> (split <;> omega)
    · omega

theorem maxScore_cons (bs : Int) (df : DFrame) (l : List DFrame) :
    maxScore bs (df :: l) = maxScore (max bs (scoreTable df)) l := rfl

theorem bs_le_maxScore : ∀ (l : List DFrame) (bs : Int), bs ≤ maxScore bs l
  | [], _ => le_refl _
  | df :: rest, bs =>
    le_trans (le_max_left bs (scoreTable df)) (bs_le_maxScore rest _)

theorem score_le_maxScore : ∀ (l : List DFrame) (bs : Int) (df : DFrame),
    df ∈ l → scoreTable df ≤ maxScore bs l
  | d :: rest, bs, df, hmem => by
    rcases List.mem_cons.mp hmem with he | ht
    · subst he
      rw [maxScore_cons]
      exact le_trans (le_max_right bs (scoreTable df)) (bs_le_maxScore rest _)
    · rw [maxScore_cons]
      exact score_le_maxScore rest _ df ht

theorem pickBestAux_cons (best : Option DFrame) (bs : Int) (df : DFrame)
    (rest : List DFrame) :
    pickBestAux best bs (df :: rest) =
      if bs < scoreTable df then pickBestAux (some df) (scoreTable df) rest
      else pickBestAux best bs rest := rfl

/-- Full characterisation of the `pick_table1` selection loop: either nothing
beats the running best, or the result is the first candidate attaining the
maximum score. -/
theorem pickBestAux_spec : ∀ (l : List DFrame) (best : Option DFrame) (bs : Int),
    (maxScore bs l = bs ∧ pickBestAux best bs l = best) ∨
    (bs < maxScore bs l ∧ ∃ i : Fin l.length,
      pickBestAux best bs l = some (l.get i) ∧
      scoreTable (l.get i) = maxScore bs l ∧
      ∀ j : Fin l.length, (j : Nat) < (i : Nat) → scoreTable (l.get j) < maxScore bs l)
  | [], best, bs => Or.inl ⟨rfl, rfl⟩
  | df :: rest, best, bs => by
    rw [pickBestAux_cons, maxScore_cons]
    by_cases hc : bs < scoreTable df
    · rw [if_pos hc, max_eq_right (le_of_lt hc)]
      rcases pickBestAux_spec rest (some df) (scoreTable df) with ⟨hm, hr⟩ | ⟨hlt, i, hr, hsc, hfirst⟩
      · right
        refine ⟨by rw [hm]; exact hc, ⟨0, Nat.succ_pos _⟩, ?_, ?_, ?_⟩
        · rw [hr]; rfl
        · rw [hm]; rfl
        · intro j hj; cases hj
      · right
        refine ⟨lt_trans hc hlt, ⟨i.1 + 1, Nat.succ_lt_succ i.2⟩, ?_, ?_, ?_⟩
        · rw [hr]; rfl
        · exact hsc
        · intro j hj
          match j with
          | ⟨0, h0⟩ => exact hlt
          | ⟨k + 1, hk⟩ => exact hfirst ⟨k, Nat.lt_of_succ_lt_succ hk⟩ (Nat.lt_of_succ_lt_succ hj)
    · rw [if_neg hc, max_eq_left (not_lt.mp hc)]
      rcases pickBestAux_spec rest best bs with ⟨hm, hr⟩ | ⟨hlt, i, hr, hsc, hfirst⟩
      · exact Or.inl ⟨hm, hr⟩
      · right
        refine ⟨hlt, ⟨i.1 + 1, Nat.succ_lt_succ i.2⟩, ?_, ?_, ?_⟩
        · rw [hr]; rfl
        · exact hsc
        · intro j hj
          match j with
          | ⟨0, h0⟩ => exact lt_of_le_of_lt (not_lt.mp hc) hlt
          | ⟨k + 1, hk⟩ => exact hfirst ⟨k, Nat.lt_of_succ_lt_succ hk⟩ (Nat.lt_of_succ_lt_succ hj)

/-- **C6, counterexample.** A candidate scoring zero is still selected: the
running best starts at `-1`, so "no candidate scores above zero" does not
yield "no table".  (A zero-scoring candidate is reachable: an HTML
`<table>` with a single header row parses to a keyword-free table with zero
data rows.) -/
theorem zero_score_candidate_selected :
    scoreTable ⟨["a", "b"], []⟩ = 0 ∧
    pickBest [⟨["a", "b"], []⟩] = some ⟨["a", "b"], []⟩ := by
  refine ⟨by decide, by decide⟩

/-- **C6, amended.** Table selection yields no table exactly when there are
no candidates; on a non-empty candidate list it always selects the candidate
with the strictly highest score (ties: first-encountered), even when that
score is zero — scores are never negative, so every candidate beats the
initial best of `-1`. -/
theorem pickBest_amended (cands : List DFrame) :
    (pickBest cands = none ↔ cands = []) ∧
    (cands ≠ [] → ∃ i : Fin cands.length,
      pickBest cands = some (cands.get i) ∧
      (∀ j : Fin cands.length, scoreTable (cands.get j) ≤ scoreTable (cands.get i)) ∧
      (∀ j : Fin cands.length, (j : Nat) < (i : Nat) →
        scoreTable (cands.get j) < scoreTable (cands.get i))) := by
  have hsel : cands ≠ [] → ∃ i : Fin cands.length,
      pickBest cands = some (cands.get i) ∧
      (∀ j : Fin cands.length, scoreTable (cands.get j) ≤ scoreTable (cands.get i)) ∧
      (∀ j : Fin cands.length, (j : Nat) < (i : Nat) →
        scoreTable (cands.get j) < scoreTable (cands.get i)) := by
    intro hne
    rcases pickBestAux_spec cands none (-1) with ⟨hm, _⟩ | ⟨_, i, hr, hsc, hfirst⟩
    · exfalso
      match cands, hne with
      | df :: rest, _ =>
        have h0 : (0 : Int) ≤ scoreTable df := scoreTable_nonneg df
        have hle : scoreTable df ≤ maxScore (-1) (df :: rest) :=
          score_le_maxScore _ _ df (List.mem_cons_self _ _)
        rw [hm] at hle
        omega
    · refine ⟨i, hr, ?_, ?_⟩
      · intro j
        rw [hsc]
        exact score_le_maxScore _ _ _ (List.get_mem _ _ _)
      · intro j hj
        rw [hsc]
        exact hfirst j hj
  refine ⟨⟨?_, ?_⟩, hsel⟩
  · intro hn
    by_contra hne
    rcases hsel hne with ⟨i, hr, _, _⟩
    rw [hn] at hr
    cases hr
  · intro h
    subst h
    rfl

/-- Closed witness for `pickBest_amended`: between a zero-scoring and a
keyword-bearing candidate, the second (higher-scoring) one is selected. -/
theorem pickBest_amended_witness :
    (pickBest [⟨["a"], []⟩, ⟨["病原体"], []⟩] = none ↔
      ([⟨["a"], []⟩, ⟨["病原体"], []⟩] : List DFrame) = []) ∧
    (∃ i : Fin ([⟨["a"], []⟩, ⟨["病原体"], []⟩] : List DFrame).length,
      pickBest [⟨["a"], []⟩, ⟨["病原体"], []⟩] =
        some (([⟨["a"], []⟩, ⟨["病原体"], []⟩] : List DFrame).get i) ∧
      (∀ j : Fin ([⟨["a"], []⟩, ⟨["病原体"], []⟩] : List DFrame).length,
        scoreTable (([⟨["a"], []⟩, ⟨["病原体"], []⟩] : List DFrame).get j) ≤
        scoreTable (([⟨["a"], []⟩, ⟨["病原体"], []⟩] : List DFrame).get i)) ∧
      (∀ j : Fin ([⟨["a"], []⟩, ⟨["病原体"], []⟩] : List DFrame).length, (j : Nat) < (i : Nat) →
        scoreTable (([⟨["a"], []⟩, ⟨["病原体"], []⟩] : List DFrame).get j) <
          scoreTable (([⟨["a"], []⟩, ⟨["病原体"], []⟩] : List DFrame).get i))) :=
  ⟨(pickBest_amended _).1, (pickBest_amended _).2 (by decide)⟩

/-! ## Latest-week column selection -/

theorem pickLatestColAux_cons (keys : List String) (best : Option String)
    (bw : Option Nat) (c : String) (rest : List String) :
    pickLatestColAux keys best bw (c :: rest) =
      if containsAny c keys then
        match weekNums c with
        | [] =>
          if best.isNone then pickLatestColAux keys (some c) bw rest
          else pickLatestColAux keys best bw rest
        | w :: ws =>
          let wmax := maxList w ws
          match bw with
          | none => pickLatestColAux keys (some c) (some wmax) rest
          | some bwv =>
            if bwv < wmax then pickLatestColAux keys (some c) (some wmax) rest
            else pickLatestColAux keys best bw rest
      else pickLatestColAux keys best bw rest := rfl

theorem bestWeekFold_cons (keys : List String) (bc : String) (bw : Nat)
    (c : String) (rest : List String) :
    bestWeekFold keys bc bw (c :: rest) =
      if wpred keys c then
        if bw < weekMaxD c then bestWeekFold keys c (weekMaxD c) rest
        else bestWeekFold keys bc bw rest
      else bestWeekFold keys bc bw rest := rfl

theorem weekMaxD_of_weekNums {c : String} {w : Nat} {ws : List Nat}
    (h : weekNums c = w :: ws) : weekMaxD c = maxList w ws := by
  unfold weekMaxD
  rw [h]

/-- Once a week-numbered column is held, the loop of `pick_latest_col` is the
pure largest-week competition `bestWeekFold`. -/
theorem pickLatestColAux_eq_bestWeekFold (keys : List String) :
    ∀ (l : List String) (bc : String) (bw : Nat),
      pickLatestColAux keys (some bc) (some bw) l =
        (some (bestWeekFold keys bc bw l).1, some (bestWeekFold keys bc bw l).2)
  | [], bc, bw => rfl
  | c :: rest, bc, bw => by
    rw [pickLatestColAux_cons, bestWeekFold_cons]
    by_cases hk : containsAny c keys
    · cases hw : weekNums c with
      | nil =>
        have hwp : wpred keys c = false := by
          unfold wpred
          rw [hw]
          simp
        rw [if_pos hk]
        dsimp only
        rw [if_neg (by simp), if_neg (by rw [hwp]; intro hx; cases hx)]
        exact pickLatestColAux_eq_bestWeekFold keys rest bc bw
      | cons w ws =>
        have hwp : wpred keys c = true := by
          unfold wpred
          rw [hw, hk]
          simp
        have hmd : weekMaxD c = maxList w ws := weekMaxD_of_weekNums hw
        rw [if_pos hk]
        dsimp only
        by_cases hlt : bw < maxList w ws
        · rw [if_pos hlt, if_pos hwp, hmd, if_pos hlt]
          exact pickLatestColAux_eq_bestWeekFold keys rest c (maxList w ws)
        · rw [if_neg hlt, if_pos hwp, hmd, if_neg hlt]
          exact pickLatestColAux_eq_bestWeekFold keys rest bc bw
    · have hwp : wpred keys c = false := by
        unfold wpred
        cases hcc : containsAny c keys with
        | false => rfl
        | true => exact absurd hcc hk
      rw [if_neg hk, if_neg (by rw [hwp]; intro hx; cases hx)]
      exact pickLatestColAux_eq_bestWeekFold keys rest bc bw

/-- Behaviour of the largest-week competition: the result dominates every
competing column and is either the seed or the first column attaining the
final (maximal) week. -/
theorem bestWeekFold_spec (keys : List String) :
    ∀ (l : List String) (bc : String) (bw : Nat),
      (∀ c ∈ l.filter (wpred keys), weekMaxD c ≤ (bestWeekFold keys bc bw l).2) ∧
      bw ≤ (bestWeekFold keys bc bw l).2 ∧
      ((bestWeekFold keys bc bw l = (bc, bw) ∧
          ∀ c ∈ l.filter (wpred keys), weekMaxD c ≤ bw) ∨
       ((bestWeekFold keys bc bw l).1 ∈ l.filter (wpred keys) ∧
        weekMaxD (bestWeekFold keys bc bw l).1 = (bestWeekFold keys bc bw l).2 ∧
        bw < (bestWeekFold keys bc bw l).2 ∧
        (l.filter (wpred keys)).find?
          (fun c => decide (weekMaxD c = (bestWeekFold keys bc bw l).2)) =
          some (bestWeekFold keys bc bw l).1))
  | [], bc, bw => by
    refine ⟨?_, le_refl _, Or.inl ⟨rfl, ?_⟩⟩ <;> (intro c hc; cases hc)
  | c :: rest, bc, bw => by
    by_cases hwp : wpred keys c
    · have hfil : (c :: rest).filter (wpred keys) = c :: rest.filter (wpred keys) := by
        rw [List.filter_cons, if_pos hwp]
      rw [bestWeekFold_cons, if_pos hwp]
      by_cases hlt : bw < weekMaxD c
      · rw [if_pos hlt]
        obtain ⟨ih1, ih2, ih3⟩ := bestWeekFold_spec keys rest c (weekMaxD c)
        rw [hfil]
        refine ⟨?_, le_trans (le_of_lt hlt) ih2, ?_⟩
        · intro x hx
          rcases List.mem_cons.mp hx with he | ht
          · subst he; exact ih2
          · exact ih1 x ht
        · right
          rcases ih3 with ⟨hres, _⟩ | ⟨hmem, hsc, hslt, hfind⟩
          · have h1 : (bestWeekFold keys c (weekMaxD c) rest).1 = c := by rw [hres]
            have h2 : (bestWeekFold keys c (weekMaxD c) rest).2 = weekMaxD c := by rw [hres]
            refine ⟨?_, ?_, ?_, ?_⟩
            · rw [h1]; exact List.mem_cons_self _ _
            · rw [h1, h2]
            · rw [h2]; exact hlt
            · rw [List.find?_cons, h2]
              rw [decide_eq_true (by rfl : weekMaxD c = weekMaxD c)]
              rw [h1]
          · refine ⟨List.mem_cons_of_mem _ hmem, hsc, lt_trans hlt hslt, ?_⟩
            rw [List.find?_cons]
            have hne : ¬ (weekMaxD c = (bestWeekFold keys c (weekMaxD c) rest).2) :=
              Nat.ne_of_lt hslt
            rw [decide_eq_false hne]
            exact hfind
      · rw [if_neg hlt]
        obtain ⟨ih1, ih2, ih3⟩ := bestWeekFold_spec keys rest bc bw
        rw [hfil]
        refine ⟨?_, ih2, ?_⟩
        · intro x hx
          rcases List.mem_cons.mp hx with he | ht
          · subst he; exact le_trans (not_lt.mp hlt) ih2
          · exact ih1 x ht
        · rcases ih3 with ⟨hres, hall⟩ | ⟨hmem, hsc, hslt, hfind⟩
          · left
            refine ⟨hres, ?_⟩
            intro x hx
            rcases List.mem_cons.mp hx with he | ht
            · subst he; exact not_lt.mp hlt
            · exact hall x ht
          · right
            refine ⟨List.mem_cons_of_mem _ hmem, hsc, hslt, ?_⟩
            rw [List.find?_cons]
            have hne : ¬ (weekMaxD c = (bestWeekFold keys bc bw rest).2) :=
              Nat.ne_of_lt (lt_of_le_of_lt (not_lt.mp hlt) hslt)
            rw [decide_eq_false hne]
            exact hfind
    · have hfil : (c :: rest).filter (wpred keys) = rest.filter (wpred keys) := by
        rw [List.filter_cons, if_neg hwp]
      rw [bestWeekFold_cons, if_neg hwp, hfil]
      exact bestWeekFold_spec keys rest bc bw

/-- Until the first week-numbered keyword column, `pick_latest_col` carries no
week; at that column it enters the largest-week competition. -/
theorem pickLatestColAux_entry (keys : List String) :
    ∀ (cols : List String) (best : Option String),
      cols.filter (wpred keys) ≠ [] →
      ∃ pre c rest, cols = pre ++ c :: rest ∧ wpred keys c = true ∧
        pre.filter (wpred keys) = [] ∧
        pickLatestColAux keys best none cols =
          pickLatestColAux keys (some c) (some (weekMaxD c)) rest
  | [], best, hne => absurd rfl hne
  | c₀ :: cols', best, hne => by
    by_cases hwp : wpred keys c₀
    · refine ⟨[], c₀, cols', rfl, hwp, rfl, ?_⟩
      have hk : containsAny c₀ keys = true := Bool.and_elim_left (by rwa [wpred] at hwp)
      obtain ⟨w, ws, hw⟩ : ∃ w ws, weekNums c₀ = w :: ws := by
        cases hwn : weekNums c₀ with
        | nil =>
          exfalso
          rw [wpred, hwn] at hwp
          simp at hwp
        | cons w ws => exact ⟨w, ws, rfl⟩
      rw [pickLatestColAux_cons, if_pos hk, hw]
      rw [weekMaxD_of_weekNums hw]
    · have hfil : (c₀ :: cols').filter (wpred keys) = cols'.filter (wpred keys) := by
        rw [List.filter_cons, if_neg hwp]
      rw [hfil] at hne
      by_cases hk : containsAny c₀ keys
      · have hwn : weekNums c₀ = [] := by
          cases hwn : weekNums c₀ with
          | nil => rfl
          | cons w ws =>
            exfalso
            apply hwp
            rw [wpred, hk, hwn]
            simp
        by_cases hbn : best.isNone
        · obtain ⟨pre, c, rest, hcols, hc, hpre, hstep⟩ :=
            pickLatestColAux_entry keys cols' (some c₀) hne
          refine ⟨c₀ :: pre, c, rest, by rw [hcols]; rfl, hc, ?_, ?_⟩
          · rw [List.filter_cons,
              if_neg hwp, hpre]
          · rw [pickLatestColAux_cons, if_pos hk, hwn]
            simp only [hbn, if_true]
            exact hstep
        · obtain ⟨pre, c, rest, hcols, hc, hpre, hstep⟩ :=
            pickLatestColAux_entry keys cols' best hne
          refine ⟨c₀ :: pre, c, rest, by rw [hcols]; rfl, hc, ?_, ?_⟩
          · rw [List.filter_cons,
              if_neg hwp, hpre]
          · rw [pickLatestColAux_cons, if_pos hk, hwn]
            simp only [hbn, if_false]
            exact hstep
      · obtain ⟨pre, c, rest, hcols, hc, hpre, hstep⟩ :=
          pickLatestColAux_entry keys cols' best hne
        refine ⟨c₀ :: pre, c, rest, by rw [hcols]; rfl, hc, ?_, ?_⟩
        · rw [List.filter_cons,
            if_neg hwp, hpre]
        · rw [pickLatestColAux_cons, if_neg hk]
          exact hstep

/-- **C9.** Among the keyword columns that embed a week number (when more
than one exists), `pick_latest_col` selects the one with the numerically
largest embedded week number, ties broken in favour of the first-encountered
column, and reports that week. -/
theorem pickLatestCol_largest_week (keys cols : List String)
    (h2 : 2 ≤ (cols.filter (wpred keys)).length) :
    ∃ c w, pickLatestCol keys cols = (some c, some w) ∧
      c ∈ cols.filter (wpred keys) ∧ weekMaxD c = w ∧
      (∀ c2 ∈ cols.filter (wpred keys), weekMaxD c2 ≤ w) ∧
      (cols.filter (wpred keys)).find? (fun c2 => decide (weekMaxD c2 = w)) = some c := by
  have hne : cols.filter (wpred keys) ≠ [] := by
    intro h
    rw [h] at h2
    cases h2
  obtain ⟨pre, c, rest, hcols, hwp, hpre, hstep⟩ := pickLatestColAux_entry keys cols none hne
  have hfil : cols.filter (wpred keys) = c :: rest.filter (wpred keys) := by
    rw [hcols, List.filter_append, hpre, List.nil_append, List.filter_cons,
      if_pos hwp]
  obtain ⟨s1, s2, s3⟩ := bestWeekFold_spec keys rest c (weekMaxD c)
  have heq : pickLatestCol keys cols =
      (some (bestWeekFold keys c (weekMaxD c) rest).1,
       some (bestWeekFold keys c (weekMaxD c) rest).2) := by
    rw [pickLatestCol, hstep]
    exact pickLatestColAux_eq_bestWeekFold keys rest c (weekMaxD c)
  refine ⟨(bestWeekFold keys c (weekMaxD c) rest).1,
    (bestWeekFold keys c (weekMaxD c) rest).2, heq, ?_, ?_, ?_, ?_⟩
  · rcases s3 with ⟨hres, _⟩ | ⟨hmem, _, _, _⟩
    · rw [hfil, hres]
      exact List.mem_cons_self _ _
    · rw [hfil]
      exact List.mem_cons_of_mem _ hmem
  · rcases s3 with ⟨hres, _⟩ | ⟨_, hsc, _, _⟩
    · rw [hres]
    · exact hsc
  · intro c2 hc2
    rw [hfil] at hc2
    rcases List.mem_cons.mp hc2 with he | ht
    · subst he; exact s2
    · exact s1 c2 ht
  · rw [hfil, List.find?_cons]
    rcases s3 with ⟨hres, _⟩ | ⟨_, _, hslt, hfind⟩
    · have h2r : (bestWeekFold keys c (weekMaxD c) rest).2 = weekMaxD c := by rw [hres]
      rw [h2r, decide_eq_true (by rfl : weekMaxD c = weekMaxD c)]
      rw [show (bestWeekFold keys c (weekMaxD c) rest).1 = c from by rw [hres]]
    · rw [decide_eq_false (Nat.ne_of_lt hslt)]
      exact hfind

/-- Closed witness for `pickLatestCol_largest_week`: the spec's example — the
column labelled `门急诊流感样病例|第22周` wins over `…第19周`. -/
theorem pickLatestCol_largest_week_witness :
    2 ≤ ((["病原体", "门急诊流感样病例|第19周", "门急诊流感样病例|第22周"] :
        List String).filter (wpred ILI_KEYS)).length ∧
    ∃ c w, pickLatestCol ILI_KEYS
        ["病原体", "门急诊流感样病例|第19周", "门急诊流感样病例|第22周"] = (some c, some w) ∧
      c ∈ (["病原体", "门急诊流感样病例|第19周", "门急诊流感样病例|第22周"] :
        List String).filter (wpred ILI_KEYS) ∧ weekMaxD c = w ∧
      (∀ c2 ∈ (["病原体", "门急诊流感样病例|第19周", "门急诊流感样病例|第22周"] :
        List String).filter (wpred ILI_KEYS), weekMaxD c2 ≤ w) ∧
      ((["病原体", "门急诊流感样病例|第19周", "门急诊流感样病例|第22周"] :
        List String).filter (wpred ILI_KEYS)).find?
          (fun c2 => decide (weekMaxD c2 = w)) = some c :=
  ⟨by decide, pickLatestCol_largest_week ILI_KEYS
    ["病原体", "门急诊流感样病例|第19周", "门急诊流感样病例|第22周"] (by decide)⟩

/-! ## Row flattening -/

/-- **C8, counterexample.** In `parse_pathogen_data` a row whose entity name
resolves but whose two value cells are both unparsable is dropped, not kept:
the code appends a record only `if ili_val is not None or sari_val is not
None`. -/
theorem named_row_dropped_when_values_unparsable :
    pathogenSkip (strTrim "新型冠状病毒") = false ∧
    extract_numeric (some "-") = none ∧
    parse_pathogen_data [⟨"新型冠状病毒", "-", "x", "-", "y"⟩] = [] := by
  refine ⟨by decide, by decide, by decide⟩

/-- **C8, amended.** Cell flattening: `"12.3%"` parses to the number `12.3`
and `"-"` (or any unparsable text) to null, in both flatteners; in
`extract_latest_week_data` a row whose resolved name is non-empty and not
stoplisted is always kept; but in `parse_pathogen_data` such a row is kept
only if at least one of its two value cells parses. -/
theorem row_flatten_amended :
    (extract_numeric (some "12.3%") = some (12.3 : ℚ) ∧
     to_float (some "12.3%") = some (12.3 : ℚ) ∧
     extract_numeric (some "-") = none ∧
     to_float (some "-") = none) ∧
    (∀ r : PRow, pathogenSkip (strTrim r.pathogen) = false →
      (parse_pathogen_data [r] = [] ↔
        extract_numeric (some r.ili_current) = none ∧
        extract_numeric (some r.sari_current) = none)) ∧
    (∀ (cols : List String) (rows : List (List (Option String)))
       (row : List (Option String)), row ∈ rows →
      strTrim (mdNameOf cols row (findPathogenCol cols)) ≠ "" →
      strTrim (mdNameOf cols row (findPathogenCol cols)) ≠ "合计" →
      strTrim (mdNameOf cols row (findPathogenCol cols)) ≠ "总计" →
      ∃ rec ∈ extract_latest_week_data_rows cols rows,
        rec.pathogen = strTrim (mdNameOf cols row (findPathogenCol cols))) := by
  refine ⟨⟨?_, ?_, by decide, by decide⟩, ?_, ?_⟩
  · rw [show extract_numeric (some "12.3%") = some (mkRat 123 10) from by decide]
    norm_num [Rat.mkRat_eq_div]
  · rw [show to_float (some "12.3%") = some (mkRat 123 10) from by decide]
    norm_num [Rat.mkRat_eq_div]
  · intro r hskip
    unfold parse_pathogen_data
    simp only [List.filterMap_cons, List.filterMap_nil]
    rw [if_neg (by rw [hskip]; intro hx; cases hx)]
    by_cases hc : extract_numeric (some r.ili_current) = none ∧
        extract_numeric (some r.sari_current) = none
    · rw [if_pos hc]
      simp [hc]
    · rw [if_neg hc]
      simp [hc]
  · intro cols rows row hrow h1 h2 h3
    unfold extract_latest_week_data_rows
    refine ⟨⟨strTrim (mdNameOf cols row (findPathogenCol cols)),
      (match (pickLatestCol ILI_KEYS cols).1 with
       | some c => to_float (mdCell cols row c)
       | none => none),
      (match (pickLatestCol SARI_KEYS cols).1 with
       | some c => to_float (mdCell cols row c)
       | none => none)⟩, ?_, rfl⟩
    apply List.mem_filterMap.mpr
    refine ⟨row, hrow, ?_⟩
    rw [if_neg ?_]
    push_neg
    exact ⟨h1, h2, h3⟩

/-- Closed witness for `row_flatten_amended`: a named all-dash row maps to
the empty output in `parse_pathogen_data`, and the markdown flattener keeps a
named row whose only value cell is a dash. -/
theorem row_flatten_amended_witness :
    (parse_pathogen_data [⟨"流感病毒", "-", "", "-", ""⟩] = [] ↔
      extract_numeric (some "-") = none ∧ extract_numeric (some "-") = none) ∧
    (∃ rec ∈ extract_latest_week_data_rows ["病原体", "门急诊|第22周"]
        [[some "流感病毒", some "-"]],
      rec.pathogen = strTrim (mdNameOf ["病原体", "门急诊|第22周"]
        [some "流感病毒", some "-"] (findPathogenCol ["病原体", "门急诊|第22周"]))) :=
  ⟨row_flatten_amended.2.1 ⟨"流感病毒", "-", "", "-", ""⟩ (by decide),
   row_flatten_amended.2.2 ["病原体", "门急诊|第22周"] [[some "流感病毒", some "-"]]
     [some "流感病毒", some "-"] (by decide) (by decide) (by decide) (by decide)⟩

/-! ## The period resolver -/

/-- **C7, counterexample.** The claim quantifies over every document text
*containing* the period string `2024年第46周（11月11日-11月17日）`, but the
resolver takes the leftmost match: a document that mentions an earlier week
marker first resolves to that week instead.  Moreover the resolver returns
the bare week int `46` (CSV cell `"46"`), never a year-prefixed label
`"2024-46"`. -/
theorem period_resolver_counterexample :
    isSubstr "2024年第46周（11月11日-11月17日）"
      "2023年第5周（1月30日-2月5日）2024年第46周（11月11日-11月17日）" = true ∧
    extract_week_info_from_title
      "2023年第5周（1月30日-2月5日）2024年第46周（11月11日-11月17日）" =
      (some "2023-01-30", some "2023-02-05", some 5) ∧
    extract_week_info_from_title
      "2023年第5周（1月30日-2月5日）2024年第46周（11月11日-11月17日）" ≠
      (some "2024-11-11", some "2024-11-17", some 46) ∧
    reportWeekCell
      (extract_week_info_from_title "2024年第46周（11月11日-11月17日）").2.2 =
      some "46" ∧
    some "46" ≠ some "2024-46" := by
  refine ⟨by decide, by decide, by decide, by decide, by decide⟩

/-- **C7, amended.** For a document text whose leftmost period match is the
string `2024年第46周（11月11日-11月17日）` (for example that string itself),
the resolver yields `reference_date = 2024-11-11`,
`target_end_date = 2024-11-17` and the bare week number `46` (persisted as
`report_week` cell `"46"`, not `"2024-46"`).  The explicit date range is
never read: patterns 1-4 look for the Kangxi radicals `⽉`/`⽇`, so the
dates come from the ISO calendar via the bare `2024年第46周` fallback —
which happens to agree with the bracketed range. -/
theorem period_resolver_amended :
    extract_week_info_from_title "2024年第46周（11月11日-11月17日）" =
      (some "2024-11-11", some "2024-11-17", some 46) ∧
    reportWeekCell
      (extract_week_info_from_title "2024年第46周（11月11日-11月17日）").2.2 =
      some "46" := by
  refine ⟨by decide, by decide⟩

end CnCdc
